import Mathlib

/-!
Verification development for the AI orchestration and knowledge-graph
ingestion engine of the `neural-cortex` repository.

The definitions below are a shallow embedding of the TypeScript source:

* the NVIDIA chat-completion gateway (`nvidiaChat`, `nvidiaChatStream`),
* the structured extractors (`extractEntitiesWithTypes`, `extractKeyPoints`,
  `generateSummary`),
* the toy embedding generator (`generateEmbeddingSimple`), and
* the knowledge-graph merge performed by `processDocumentWithAI` in
  `src/app/api/ingest/document/route.ts`, together with the POST/PATCH
  ingestion gates.

Network calls are abstracted by an oracle (`Net`) giving the outcome of each
HTTP request; the persistent store (Prisma) is modelled by an explicit record
of document and node rows; JavaScript numbers used for node strengths are
modelled by rationals (all values that occur are small dyadic rationals, on
which float arithmetic is exact); the browser `JSON` builtins are modelled by
an executable parser/serializer over a JSON value type whose numbers are
restricted to integers (none of the payloads relevant to the specification
use fractional literals).
-/

set_option maxHeartbeats 1000000
set_option maxRecDepth 20000

namespace NeuralCortex

/-- Model of a JavaScript JSON value (numbers restricted to integers; every
payload exchanged by this system that matters to the specification is
integer-valued). -/
inductive Json where
  | null
  | bool (b : Bool)
  | num (n : Int)
  | str (s : String)
  | arr (elems : List Json)
  | obj (fields : List (String × Json))

mutual

/-- Decidable equality of JSON values. -/
def Json.decEq : (a b : Json) → Decidable (a = b)
  | .null, .null => isTrue rfl
  | .bool a, .bool b =>
    if h : a = b then isTrue (by rw [h]) else isFalse (fun hh => h (Json.bool.inj hh))
  | .num a, .num b =>
    if h : a = b then isTrue (by rw [h]) else isFalse (fun hh => h (Json.num.inj hh))
  | .str a, .str b =>
    if h : a = b then isTrue (by rw [h]) else isFalse (fun hh => h (Json.str.inj hh))
  | .arr xs, .arr ys =>
    match Json.decEqList xs ys with
    | isTrue h => isTrue (by rw [h])
    | isFalse h => isFalse (fun hh => h (Json.arr.inj hh))
  | .obj fs, .obj gs =>
    match Json.decEqFields fs gs with
    | isTrue h => isTrue (by rw [h])
    | isFalse h => isFalse (fun hh => h (Json.obj.inj hh))
  | .null, .bool _ => isFalse (by intro h; exact Json.noConfusion h)
  | .null, .num _ => isFalse (by intro h; exact Json.noConfusion h)
  | .null, .str _ => isFalse (by intro h; exact Json.noConfusion h)
  | .null, .arr _ => isFalse (by intro h; exact Json.noConfusion h)
  | .null, .obj _ => isFalse (by intro h; exact Json.noConfusion h)
  | .bool _, .null => isFalse (by intro h; exact Json.noConfusion h)
  | .bool _, .num _ => isFalse (by intro h; exact Json.noConfusion h)
  | .bool _, .str _ => isFalse (by intro h; exact Json.noConfusion h)
  | .bool _, .arr _ => isFalse (by intro h; exact Json.noConfusion h)
  | .bool _, .obj _ => isFalse (by intro h; exact Json.noConfusion h)
  | .num _, .null => isFalse (by intro h; exact Json.noConfusion h)
  | .num _, .bool _ => isFalse (by intro h; exact Json.noConfusion h)
  | .num _, .str _ => isFalse (by intro h; exact Json.noConfusion h)
  | .num _, .arr _ => isFalse (by intro h; exact Json.noConfusion h)
  | .num _, .obj _ => isFalse (by intro h; exact Json.noConfusion h)
  | .str _, .null => isFalse (by intro h; exact Json.noConfusion h)
  | .str _, .bool _ => isFalse (by intro h; exact Json.noConfusion h)
  | .str _, .num _ => isFalse (by intro h; exact Json.noConfusion h)
  | .str _, .arr _ => isFalse (by intro h; exact Json.noConfusion h)
  | .str _, .obj _ => isFalse (by intro h; exact Json.noConfusion h)
  | .arr _, .null => isFalse (by intro h; exact Json.noConfusion h)
  | .arr _, .bool _ => isFalse (by intro h; exact Json.noConfusion h)
  | .arr _, .num _ => isFalse (by intro h; exact Json.noConfusion h)
  | .arr _, .str _ => isFalse (by intro h; exact Json.noConfusion h)
  | .arr _, .obj _ => isFalse (by intro h; exact Json.noConfusion h)
  | .obj _, .null => isFalse (by intro h; exact Json.noConfusion h)
  | .obj _, .bool _ => isFalse (by intro h; exact Json.noConfusion h)
  | .obj _, .num _ => isFalse (by intro h; exact Json.noConfusion h)
  | .obj _, .str _ => isFalse (by intro h; exact Json.noConfusion h)
  | .obj _, .arr _ => isFalse (by intro h; exact Json.noConfusion h)

/-- Decidable equality of JSON arrays. -/
def Json.decEqList : (a b : List Json) → Decidable (a = b)
  | [], [] => isTrue rfl
  | [], _ :: _ => isFalse (by intro h; exact List.noConfusion h)
  | _ :: _, [] => isFalse (by intro h; exact List.noConfusion h)
  | x :: xs, y :: ys =>
    match Json.decEq x y with
    | isFalse h => isFalse (fun hh => h (List.cons.inj hh).1)
    | isTrue h1 =>
      match Json.decEqList xs ys with
      | isTrue h2 => isTrue (by rw [h1, h2])
      | isFalse h => isFalse (fun hh => h (List.cons.inj hh).2)

/-- Decidable equality of JSON object field lists. -/
def Json.decEqFields : (a b : List (String × Json)) → Decidable (a = b)
  | [], [] => isTrue rfl
  | [], _ :: _ => isFalse (by intro h; exact List.noConfusion h)
  | _ :: _, [] => isFalse (by intro h; exact List.noConfusion h)
  | (k, v) :: fs, (k', v') :: gs =>
    if hk : k = k' then
      match Json.decEq v v' with
      | isFalse h => isFalse (fun hh => h (congrArg Prod.snd (List.cons.inj hh).1))
      | isTrue hv =>
        match Json.decEqFields fs gs with
        | isTrue hs => isTrue (by rw [hk, hv, hs])
        | isFalse h => isFalse (fun hh => h (List.cons.inj hh).2)
    else isFalse (fun hh => hk (congrArg Prod.fst (List.cons.inj hh).1))

end

instance : DecidableEq Json := Json.decEq

/-- JavaScript truthiness of a JSON value (`NaN` cannot occur in this model). -/
def Json.truthy : Json → Bool
  | .null => false
  | .bool b => b
  | .num n => n != 0
  | .str s => s != ""
  | .arr _ => true
  | .obj _ => true

/-- Property access `j?.k` (optional chaining): `none` when the value is not
an object or lacks the key.  JavaScript object literals keep the last
occurrence of a duplicated key, hence the `getLast?`. -/
def Json.getField : Json → String → Option Json
  | .obj fs, k => ((fs.filter (fun p => p.1 == k)).getLast?).map (·.2)
  | _, _ => none

/-- Index access `j?.[i]` on an array value. -/
def Json.getIdx : Json → Nat → Option Json
  | .arr xs, i => xs.get? i
  | _, _ => none

/-! ### JavaScript string primitives

The JavaScript string operations used by the source are modelled over the
character list of the string (Lean's byte-position-based `String` functions
compute the same values but are not kernel-reducible, which concrete
evaluation needs).  Character codes are Unicode code points, which agree
with UTF-16 units on the basic multilingual plane. -/

/-- `s.slice(0, n)`. -/
def jsTake (s : String) (n : Nat) : String :=
  String.mk (s.toList.take n)

/-- `s.slice(n)`. -/
def jsDrop (s : String) (n : Nat) : String :=
  String.mk (s.toList.drop n)

/-- `s.startsWith(p)`. -/
def jsStartsWith (s p : String) : Bool :=
  p.toList.isPrefixOf s.toList

/-- `s.trim()`. -/
def jsTrim (s : String) : String :=
  String.mk (((s.toList.dropWhile Char.isWhitespace).reverse.dropWhile Char.isWhitespace).reverse)

/-- `s.toLowerCase()`. -/
def jsToLower (s : String) : String :=
  String.mk (s.toList.map Char.toLower)

/-- Split a character list at every separator character (empty pieces
between adjacent separators are kept). -/
def splitOnPred (sep : Char → Bool) : List Char → List (List Char)
  | [] => [[]]
  | c :: cs =>
    if sep c then [] :: splitOnPred sep cs
    else
      match splitOnPred sep cs with
      | [] => [[c]]
      | w :: ws => (c :: w) :: ws

/-- `s.split("\n")`. -/
def jsSplitLines (s : String) : List String :=
  (splitOnPred (fun c => c == '\n') s.toList).map String.mk

/-- `s.split(/\s+/)` up to empty pieces: splitting at every whitespace
character rather than at runs inserts extra empty strings, which every use
in the source ignores. -/
def jsSplitWs (s : String) : List String :=
  (splitOnPred Char.isWhitespace s.toList).map String.mk

/-- Value of a hexadecimal digit. -/
def hexVal (c : Char) : Option Nat :=
  if '0' ≤ c ∧ c ≤ '9' then some (c.toNat - 48)
  else if 'a' ≤ c ∧ c ≤ 'f' then some (c.toNat - 87)
  else if 'A' ≤ c ∧ c ≤ 'F' then some (c.toNat - 55)
  else none

/-- JSON insignificant whitespace. -/
def isJsonWs (c : Char) : Bool :=
  c == ' ' || c == '\n' || c == '\t' || c == '\r'

/-- Skip leading JSON whitespace. -/
def skipWs : List Char → List Char
  | [] => []
  | c :: cs => if isJsonWs c then skipWs cs else c :: cs

/-- Scan a JSON string literal after its opening quote, returning the decoded
string and the input following the closing quote. -/
def scanStrLit : Nat → List Char → Option (String × List Char)
  | 0, _ => none
  | _ + 1, [] => none
  | fuel + 1, c :: cs =>
    if c == '"' then some ("", cs)
    else if c == '\\' then
      match cs with
      | [] => none
      | e :: cs' =>
        let cont := fun (ch : Char) (rest : List Char) =>
          (scanStrLit fuel rest).map (fun p => (String.singleton ch ++ p.1, p.2))
        if e == '"' then cont '"' cs'
        else if e == '\\' then cont '\\' cs'
        else if e == '/' then cont '/' cs'
        else if e == 'n' then cont '\n' cs'
        else if e == 't' then cont '\t' cs'
        else if e == 'r' then cont '\r' cs'
        else if e == 'b' then cont (Char.ofNat 8) cs'
        else if e == 'f' then cont (Char.ofNat 12) cs'
        else if e == 'u' then
          match cs' with
          | h1 :: h2 :: h3 :: h4 :: cs'' =>
            match hexVal h1, hexVal h2, hexVal h3, hexVal h4 with
            | some a, some b, some c2, some d =>
                cont (Char.ofNat (((a * 16 + b) * 16 + c2) * 16 + d)) cs''
            | _, _, _, _ => none
          | _ => none
        else none
    else if c.toNat < 32 then none
    else (scanStrLit fuel cs).map (fun p => (String.singleton c ++ p.1, p.2))

/-- Leading decimal digits of the input, and the remainder. -/
def scanDigits : List Char → List Char × List Char
  | [] => ([], [])
  | c :: cs =>
    if c.isDigit then
      let p := scanDigits cs
      (c :: p.1, p.2)
    else ([], c :: cs)

/-- Numeric value of a digit list. -/
def digitsToNat (ds : List Char) : Nat :=
  ds.foldl (fun a c => a * 10 + (c.toNat - 48)) 0

/-- Parser state: either a full value is expected, or the remaining items of
an array / object whose opening bracket (and first-element position) has been
consumed. -/
inductive PMode where
  | value
  | arrLoop (acc : List Json)
  | objLoop (acc : List (String × Json))

/-- Recursive-descent JSON parse (fuel-indexed so that the recursion is
structural and kernel-reducible). -/
def pRun : Nat → PMode → List Char → Option (Json × List Char)
  | 0, _, _ => none
  | fuel + 1, .value, cs0 =>
    let cs := skipWs cs0
    match cs with
    | [] => none
    | c :: rest =>
      if c == '"' then
        (scanStrLit (rest.length + 1) rest).map (fun p => (Json.str p.1, p.2))
      else if c == '[' then
        match skipWs rest with
        | ']' :: r => some (Json.arr [], r)
        | cs1 => pRun fuel (.arrLoop []) cs1
      else if c == '\x7b' then
        match skipWs rest with
        | '\x7d' :: r => some (Json.obj [], r)
        | cs1 => pRun fuel (.objLoop []) cs1
      else if c == 't' then
        if "rue".toList.isPrefixOf rest then some (Json.bool true, rest.drop 3) else none
      else if c == 'f' then
        if "alse".toList.isPrefixOf rest then some (Json.bool false, rest.drop 4) else none
      else if c == 'n' then
        if "ull".toList.isPrefixOf rest then some (Json.null, rest.drop 3) else none
      else if c == '-' then
        match scanDigits rest with
        | ([], _) => none
        | (ds, r) => some (Json.num (-(digitsToNat ds : Int)), r)
      else if c.isDigit then
        match scanDigits (c :: rest) with
        | ([], _) => none
        | (ds, r) => some (Json.num (digitsToNat ds : Int), r)
      else none
  | fuel + 1, .arrLoop acc, cs =>
    match pRun fuel .value cs with
    | none => none
    | some (elem, rest) =>
      match skipWs rest with
      | ',' :: r => pRun fuel (.arrLoop (elem :: acc)) r
      | ']' :: r => some (Json.arr (elem :: acc).reverse, r)
      | _ => none
  | fuel + 1, .objLoop acc, cs =>
    match skipWs cs with
    | '"' :: r =>
      match scanStrLit (r.length + 1) r with
      | none => none
      | some (k, r1) =>
        match skipWs r1 with
        | ':' :: r2 =>
          match pRun fuel .value r2 with
          | none => none
          | some (v, r3) =>
            match skipWs r3 with
            | ',' :: r4 => pRun fuel (.objLoop ((k, v) :: acc)) r4
            | '\x7d' :: r4 => some (Json.obj ((k, v) :: acc).reverse, r4)
            | _ => none
        | _ => none
    | _ => none

/-- Model of `JSON.parse`: `none` exactly when the JavaScript builtin throws. -/
def jsonParse (s : String) : Option Json :=
  match pRun (2 * s.length + 16) .value s.toList with
  | some (j, rest) => if (skipWs rest).isEmpty then some j else none
  | none => none

/-- Four-digit hexadecimal rendering used by `JSON.stringify` for control
characters. -/
def hexDigit (n : Nat) : Char :=
  if n < 10 then Char.ofNat (48 + n) else Char.ofNat (87 + (n - 10))

/-- Escape one character as `JSON.stringify` does. -/
def escapeChar (c : Char) : String :=
  if c == '"' then "\\\""
  else if c == '\\' then "\\\\"
  else if c == '\n' then "\\n"
  else if c == '\t' then "\\t"
  else if c == '\r' then "\\r"
  else if c.toNat == 8 then "\\b"
  else if c.toNat == 12 then "\\f"
  else if c.toNat < 32 then
    "\\u00" ++ String.singleton (hexDigit (c.toNat / 16)) ++ String.singleton (hexDigit (c.toNat % 16))
  else String.singleton c

/-- `JSON.stringify` of a string value. -/
def stringifyStr (s : String) : String :=
  "\"" ++ String.join (s.toList.map escapeChar) ++ "\""

mutual

/-- Model of `JSON.stringify` on the JSON values of this development. -/
def Json.stringify : Json → String
  | .null => "null"
  | .bool true => "true"
  | .bool false => "false"
  | .num n => toString n
  | .str s => stringifyStr s
  | .arr xs => "[" ++ String.intercalate "," (stringifyList xs) ++ "]"
  | .obj fs => "\x7b" ++ String.intercalate "," (stringifyFields fs) ++ "\x7d"

/-- Stringify each element of an array. -/
def stringifyList : List Json → List String
  | [] => []
  | j :: js => j.stringify :: stringifyList js

/-- Stringify each field of an object. -/
def stringifyFields : List (String × Json) → List String
  | [] => []
  | (k, v) :: fs => (stringifyStr k ++ ":" ++ v.stringify) :: stringifyFields fs

end

/-! ## Completion gateway (`lib/nvidia.ts`) -/

/-- Role of a chat message. -/
inductive Role where
  | system
  | user
  | assistant
deriving DecidableEq

/-- A chat message (`ChatMessage` in the source). -/
structure ChatMessage where
  role : Role
  content : String
deriving DecidableEq

/-- The options accepted by the gateway (`ChatOptions` in the source).
Temperatures are dyadic/decimal literals in the source, modelled as
rationals. -/
structure ChatOptions where
  messages : List ChatMessage
  maxTokens : Option Nat
  temperature : Option ℚ
  stream : Option Bool
  model : Option String
deriving DecidableEq

/-- Outcome of one HTTP call to the completion endpoint, for one candidate
model.  `response status content` is an HTTP reply whose
`choices[0].message.content` field is `content` (the empty string standing
for an absent or empty field, which the source treats identically);
`exn msg` is a timeout, abort, transport error, or response-body decode
failure, all of which surface as a thrown exception in the source. -/
inductive CallOutcome where
  | response (status : Nat) (content : String)
  | exn (msg : String)
deriving DecidableEq

/-- Network oracle: the outcome of the POST for a given candidate model and
request options. -/
abbrev Net := String → ChatOptions → CallOutcome

/-- The fixed fallback model list (`MODELS` in the source). -/
def MODELS : List String :=
  ["meta/llama-3.3-70b-instruct",
   "meta/llama-3.1-70b-instruct",
   "mistralai/mistral-large-2-instruct"]

/-- One iteration of the fallback loop body of `nvidiaChat`: `.ok` is a
non-empty successful completion, `.error` is that candidate's failure with
the message of the `Error` object the source records in `lastError`. -/
def tryModel (net : Net) (opts : ChatOptions) (m : String) : Except String String :=
  match net m opts with
  | .response status content =>
    if 200 ≤ status ∧ status < 300 then
      if content == "" then .error "Empty response from AI" else .ok content
    else .error ("NVIDIA API error: " ++ toString status)
  | .exn msg => .error msg

/-- The ordered candidate list `model ? [model, ...MODELS] : MODELS`
(an empty-string override is falsy in JavaScript). -/
def candidateModels (model : Option String) : List String :=
  match model with
  | some m => if m == "" then MODELS else m :: MODELS
  | none => MODELS

/-- The `for (const currentModel of modelsToTry)` loop of `nvidiaChat`,
threading `lastError`. -/
def chatLoop (net : Net) (opts : ChatOptions) : List String → Option String → Except String String
  | [], lastError => .error (lastError.getD "All AI models failed")
  | m :: rest, _ =>
    match tryModel net opts m with
    | .ok c => .ok c
    | .error e => chatLoop net opts rest (some e)

/-- The blocking gateway `nvidiaChat` (lines 37–98 of `lib/nvidia.ts`). -/
def nvidiaChat (net : Net) (apiKey : Option String) (opts : ChatOptions) : Except String String :=
  match apiKey with
  | none => .error "NVIDIA_API_KEY is not configured"
  | some _ => chatLoop net opts (candidateModels opts.model) none

/-! ## Streaming gateway (`nvidiaChatStream`, lines 149–188)

The upstream body is modelled as the list of chunks delivered by
`reader.read()`, each already decoded to text; the produced stream is the
list of SSE strings enqueued on the controller. -/

/-- The field chain `parsed.choices?.[0]?.delta?.content`. -/
def deltaContent (parsed : Json) : Option Json :=
  ((parsed.getField "choices").bind (fun c => c.getIdx 0)).bind
    (fun c => (c.getField "delta").bind (fun d => d.getField "content"))

/-- What the `for (const line of lines)` body does with one upstream line. -/
inductive LineAct where
  | skip
  | emit (content : Json)
  | done
deriving DecidableEq

/-- Per-line behaviour of the stream pull handler. -/
def handleStreamLine (line : String) : LineAct :=
  if jsStartsWith line "data: " then
    let data := jsTrim (jsDrop line 6)
    if data == "[DONE]" then .done
    else
      match jsonParse data with
      | none => .skip
      | some parsed =>
        match deltaContent parsed with
        | some content => if content.truthy then .emit content else .skip
        | none => .skip
  else .skip

/-- The re-framed SSE event emitted for one extracted delta. -/
def contentEvent (content : Json) : String :=
  "data: " ++ (Json.obj [("content", content)]).stringify ++ "\n\n"

/-- The terminating SSE sentinel. -/
def doneEvent : String := "data: [DONE]\n\n"

/-- Process the lines of one upstream chunk; the Boolean is whether the
stream was closed by an upstream `[DONE]` (remaining lines and chunks are
then never read). -/
def processChunkLines : List String → List String × Bool
  | [] => ([], false)
  | l :: ls =>
    match handleStreamLine l with
    | .done => ([doneEvent], true)
    | .skip => processChunkLines ls
    | .emit c =>
      let p := processChunkLines ls
      (contentEvent c :: p.1, p.2)

/-- The full output stream produced by `nvidiaChatStream`'s pull loop on a
given list of upstream chunks: each chunk is split on newlines and handled
line by line; on upstream exhaustion a final `[DONE]` is emitted. -/
def nvidiaChatStreamSim : List String → List String
  | [] => [doneEvent]
  | chunk :: rest =>
    let p := processChunkLines (jsSplitLines chunk)
    if p.2 then p.1 else p.1 ++ nvidiaChatStreamSim rest

/-! ## Structured extractors (`lib/nvidia.ts`, lines 191–276) -/

/-- Single left-to-right pass of `String.replace(/<pat>\n?/g, "")`: each
occurrence of `pat`, together with one optional trailing newline, is removed;
the scan resumes after the removed text and never rescans earlier output. -/
def stripFenceAux (pat : List Char) : Nat → List Char → List Char
  | 0, cs => cs
  | _ + 1, [] => []
  | fuel + 1, c :: cs =>
    if pat.isPrefixOf (c :: cs) then
      match (c :: cs).drop pat.length with
      | '\n' :: rest => stripFenceAux pat fuel rest
      | rest => stripFenceAux pat fuel rest
    else c :: stripFenceAux pat fuel cs

/-- The defensive cleanup
`response.replace(/```json\n?/g, "").replace(/```\n?/g, "").trim()`. -/
def cleanAIResponse (s : String) : String :=
  let l1 := stripFenceAux "```json".toList s.toList.length s.toList
  let l2 := stripFenceAux "```".toList l1.length l1
  jsTrim (String.mk l2)

/-- Entity categories (`TypedEntity.type` in the source). -/
inductive EType where
  | concept
  | entity
  | idea
deriving DecidableEq

/-- The string stored for an entity category. -/
def EType.toStr : EType → String
  | .concept => "concept"
  | .entity => "entity"
  | .idea => "idea"

/-- A typed entity produced by the extraction layer. -/
structure TypedEntity where
  name : String
  type : EType
deriving DecidableEq

/-- System prompt of `generateSummary`. -/
def summarySystemPrompt : String :=
  "You are a summarization expert. Provide a concise, informative summary of the given text in 2-3 sentences. Include key points and main ideas."

/-- System prompt of `extractEntitiesWithTypes`. -/
def entitySystemPrompt : String :=
  "Extract key entities from the text and classify each into one of these types:\n- \"entity\": Specific named things — people, organizations, products, places, technologies, tools (e.g. Google, PostgreSQL, Elon Musk)\n- \"concept\": Abstract topics, fields, methodologies, theories (e.g. Machine Learning, Normalization, ACID Properties)\n- \"idea\": Opinions, insights, proposals, hypotheses, arguments (e.g. \"data should be normalized\", \"NoSQL is better for scale\")\n\nReturn ONLY a JSON array of objects with \"name\" and \"type\" fields.\nExample: [\x7b\"name\":\"React\",\"type\":\"entity\"\x7d,\x7b\"name\":\"Machine Learning\",\"type\":\"concept\"\x7d,\x7b\"name\":\"Components should be pure\",\"type\":\"idea\"\x7d]\nNo explanations, no markdown."

/-- System prompt of `extractKeyPoints`. -/
def keyPointSystemPrompt : String :=
  "Extract the key points from the given text. Return ONLY a JSON array of strings. Example: [\"Point one\", \"Point two\"]. No explanations."

/-- The request built by `generateSummary` (input truncated to 6000
characters). -/
def summaryOptions (text : String) : ChatOptions :=
  { messages := [⟨.system, summarySystemPrompt⟩, ⟨.user, jsTake text 6000⟩],
    maxTokens := some 300, temperature := some (3 / 10), stream := none, model := none }

/-- `generateSummary`: a plain gateway call, *not* fail-soft — a gateway
error propagates to the caller. -/
def generateSummary (net : Net) (apiKey : Option String) (text : String) : Except String String :=
  nvidiaChat net apiKey (summaryOptions text)

/-- The request built by `extractEntitiesWithTypes` (input truncated to 4000
characters). -/
def entityOptions (text : String) : ChatOptions :=
  { messages := [⟨.system, entitySystemPrompt⟩, ⟨.user, jsTake text 4000⟩],
    maxTokens := some 1024, temperature := some (1 / 10), stream := none, model := none }

/-- The filter `e && e.name && typeof e.name === "string"` on a parsed array
element. -/
def validEntityJson (e : Json) : Bool :=
  e.truthy &&
    (match e.getField "name" with
     | some (Json.str s) => s != ""
     | _ => false)

/-- The `name` field of a validated element. -/
def entityName (e : Json) : String :=
  match e.getField "name" with
  | some (Json.str s) => s
  | _ => ""

/-- `["concept","entity","idea"].includes(e.type) ? e.type : "entity"`. -/
def entityTypeOf (e : Json) : EType :=
  match e.getField "type" with
  | some (Json.str "concept") => .concept
  | some (Json.str "entity") => .entity
  | some (Json.str "idea") => .idea
  | _ => .entity

/-- `extractEntitiesWithTypes` (lines 216–253): fail-soft structured
extraction of typed entities. -/
def extractEntitiesWithTypes (net : Net) (apiKey : Option String) (text : String) : List TypedEntity :=
  match nvidiaChat net apiKey (entityOptions text) with
  | .error _ => []
  | .ok response =>
    match jsonParse (cleanAIResponse response) with
    | some (Json.arr parsed) =>
      (((parsed.filter validEntityJson).map
        (fun e => TypedEntity.mk (entityName e) (entityTypeOf e))).take 20)
    | _ => []

/-- The request built by `extractKeyPoints` (input truncated to 4000
characters). -/
def keyPointOptions (text : String) : ChatOptions :=
  { messages := [⟨.system, keyPointSystemPrompt⟩, ⟨.user, jsTake text 4000⟩],
    maxTokens := some 1024, temperature := some (2 / 10), stream := none, model := none }

/-- `extractKeyPoints` (lines 255–276).  The source returns
`parsed.slice(0, 10)` without validating the elements, so the result is a
list of arbitrary JSON values. -/
def extractKeyPoints (net : Net) (apiKey : Option String) (text : String) : List Json :=
  match nvidiaChat net apiKey (keyPointOptions text) with
  | .error _ => []
  | .ok response =>
    match jsonParse (cleanAIResponse response) with
    | some (Json.arr parsed) => parsed.take 10
    | _ => []

/-! ## Embedding generator (`generateEmbeddingSimple`, lines 278–292) -/

/-- Increment one bucket of the accumulator vector. -/
def bump (v : List Nat) (i : Nat) : List Nat :=
  v.set i (v.getD i 0 + 1)

/-- Accumulate the buckets of one word:
`idx = (word.charCodeAt(i) * (i + 1) * 7) % 128`.  Character codes are taken
as Unicode code points (identical to UTF-16 units on the basic plane). -/
def wordCounts (v : List Nat) (w : List Char) : List Nat :=
  w.enum.foldl (fun acc p => bump acc ((p.2.toNat * (p.1 + 1) * 7) % 128)) v

/-- The integer bucket counts accumulated by `generateEmbeddingSimple`
before normalization.  `String.split` yields empty pieces between adjacent
whitespace characters where `split(/\s+/)` groups whole runs, but empty
words contribute nothing to the counts. -/
def embedCounts (text : String) : List Nat :=
  (jsSplitWs (jsToLower text)).foldl
    (fun acc w => wordCounts acc w.toList) (List.replicate 128 0)

/-- `generateEmbeddingSimple`: the counts, L2-normalized unless the norm is
zero (real-valued model of the JavaScript float computation). -/
noncomputable def generateEmbeddingSimple (text : String) : List ℝ :=
  let e : List ℝ := (embedCounts text).map (fun n : Nat => (n : ℝ))
  let norm : ℝ := Real.sqrt (e.foldl (fun sum v => sum + v * v) 0)
  if 0 < norm then e.map (fun v => v / norm) else e

/-- Euclidean norm of a vector, as computed by the source
(`Math.sqrt(v.reduce((s, x) => s + x * x, 0))`). -/
noncomputable def l2norm (v : List ℝ) : ℝ :=
  Real.sqrt (v.foldl (fun sum x => sum + x * x) 0)

/-! ## Persistent store and knowledge-graph merge
(`src/app/api/ingest/document/route.ts`) -/

/-- A `knowledgeNode` row.  Node ids are modelled as naturals issued by a
counter (the store issues opaque unique ids); `strength` is a rational (all
values reachable by the code are multiples of `0.5`, on which JavaScript
float arithmetic is exact); `connections` is the JSON-decoded id array. -/
structure KnowledgeNode where
  id : Nat
  userId : String
  label : String
  type : String
  description : String
  strength : ℚ
  connections : List Nat
deriving DecidableEq

/-- A `document` row, with the AI-derived columns nullable.  The stored
`embedding` column is the serialized L2-normalization of the recorded
integer bucket counts (see `generateEmbeddingSimple`); the counts are
recorded instead of the real vector so that the store stays decidable. -/
structure DocumentRec where
  id : String
  userId : String
  title : String
  content : String
  summary : Option String
  entities : Option (List String)
  keyPoints : Option (List Json)
  tags : Option (List String)
  embedding : Option (List Nat)
deriving DecidableEq

/-- The persistent store: document rows, node rows (in insertion order,
which `findFirst`/`findMany` follow), and the node-id counter. -/
structure DB where
  docs : List DocumentRec
  nodes : List KnowledgeNode
  nextNodeId : Nat
deriving DecidableEq

/-- `prisma.knowledgeNode.findFirst({ where: { userId, label } })`. -/
def DB.findNode (db : DB) (uid label : String) : Option KnowledgeNode :=
  db.nodes.find? (fun n => n.userId == uid && n.label == label)

/-- `prisma.knowledgeNode.create`: appends a fresh row and returns it. -/
def DB.createNode (db : DB) (uid label ty desc : String) (strength : ℚ)
    (connections : List Nat) : DB × KnowledgeNode :=
  let n : KnowledgeNode :=
    { id := db.nextNodeId, userId := uid, label := label, type := ty,
      description := desc, strength := strength, connections := connections }
  ({ db with nodes := db.nodes ++ [n], nextNodeId := db.nextNodeId + 1 }, n)

/-- The two update payloads the merge sends to `prisma.knowledgeNode.update`. -/
inductive NodePatch where
  | strengthType (strength : ℚ) (ty : Option String)
  | conns (cs : List Nat)
deriving DecidableEq

/-- Apply an update payload to a row. -/
def applyPatch (p : NodePatch) (n : KnowledgeNode) : KnowledgeNode :=
  match p with
  | .strengthType s ty => { n with strength := s, type := ty.getD n.type }
  | .conns cs => { n with connections := cs }

/-- `prisma.knowledgeNode.update({ where: { id }, data })`. -/
def DB.updateNode (db : DB) (i : Nat) (p : NodePatch) : DB :=
  { db with nodes := db.nodes.map (fun n => if n.id == i then applyPatch p n else n) }

/-- The per-entity find-or-create step (route lines 116–143): create with
strength `1.0` and no connections, or accumulate strength by `0.5` and
upgrade a generic `entity` type to the newly observed specific type. -/
def upsertEntity (uid : String) (e : TypedEntity) (db : DB) : DB :=
  match db.findNode uid e.name with
  | none => (db.createNode uid e.name e.type.toStr "Extracted from document" 1 []).1
  | some existing =>
    db.updateNode existing.id
      (.strengthType (existing.strength + 1 / 2)
        (if existing.type == "entity" && e.type.toStr != "entity"
         then some e.type.toStr else none))

/-- The entity upsert loop of the merge. -/
def upsertAll (uid : String) (ents : List TypedEntity) (db : DB) : DB :=
  ents.foldl (fun st e => upsertEntity uid e st) db

/-- `Array.from(new Set(list))`: first-occurrence deduplication. -/
def jsDedup (l : List Nat) : List Nat :=
  l.foldl (fun acc x => if acc.contains x then acc else acc ++ [x]) []

/-- One iteration of the connection loop (route lines 169–179): the
snapshot row's stored connections are unioned with the other snapshot ids
and the document node id. -/
def connectStep (snapshot : List KnowledgeNode) (docNodeId : Nat)
    (st : DB) (node : KnowledgeNode) : DB :=
  let otherIds := (snapshot.filter (fun n => n.id != node.id)).map (·.id)
  let allConnections := otherIds ++ [docNodeId]
  let newConnections := jsDedup (node.connections ++ allConnections)
  st.updateNode node.id (.conns newConnections)

/-- The connection loop over the (pre-fetched) snapshot. -/
def connectPhase (snapshot : List KnowledgeNode) (docNodeId : Nat) (db : DB) : DB :=
  snapshot.foldl (connectStep snapshot docNodeId) db

/-- `doc?.title || `Document ${docId.slice(0, 8)}`` (route lines 151–152):
the document-node label, from the stored document's title with a
docId-derived fallback (an empty title is falsy). -/
def docNodeLabel (db : DB) (docId : String) : String :=
  match db.docs.find? (fun d => d.id == docId) with
  | some d => if d.title != "" then d.title else "Document " ++ jsTake docId 8
  | none => "Document " ++ jsTake docId 8

/-- `prisma.knowledgeNode.findMany({ where: { userId, label: { in:
entityNames } } })` (route lines 146–148): the post-upsert snapshot of the
document's entity rows. -/
def entitySnapshot (uid : String) (ents : List TypedEntity) (db : DB) : List KnowledgeNode :=
  db.nodes.filter (fun n => n.userId == uid && (ents.map (·.name)).contains n.label)

/-- The knowledge-graph merge for one document (route lines 116–179):
upsert every typed entity, re-fetch the entity rows, find-or-create the
document node (strength `2.0`, initial connections = the fetched entity
ids), then union each fetched entity row's connections with the other
entity ids and the document-node id. -/
def mergeDocument (uid docId : String) (ents : List TypedEntity) (db : DB) : DB :=
  let db1 := upsertAll uid ents db
  let nodes := entitySnapshot uid ents db1
  let docLabel := docNodeLabel db1 docId
  match db1.findNode uid docLabel with
  | some docNode => connectPhase nodes docNode.id db1
  | none =>
    let created := db1.createNode uid docLabel "document" "Source document" 2 (nodes.map (·.id))
    connectPhase nodes created.2.id created.1

/-- The document update that stores the AI-derived fields (route lines
104–113). -/
def updateDocAI (docId summary : String) (names : List String) (kps : List Json)
    (emb : List Nat) (db : DB) : DB :=
  { db with docs := db.docs.map (fun d =>
      if d.id == docId then
        { d with summary := some summary, entities := some names,
                 keyPoints := some kps, tags := some (names.take 5),
                 embedding := some emb }
      else d) }

/-- `processDocumentWithAI` (route lines 93–185).  The three extraction
calls are issued concurrently through `Promise.all`, which rejects as soon
as any of them rejects: `extractEntitiesWithTypes` and `extractKeyPoints`
are internally fail-soft, but `generateSummary` is not, so a summary
failure aborts the whole body before any write; the outer `catch` then
swallows the error, leaving the store unchanged.  A missing document row
makes `document.update` throw, with the same outcome. -/
def processDocumentWithAI (net : Net) (apiKey : Option String)
    (docId content uid : String) (db : DB) : DB :=
  match generateSummary net apiKey content with
  | .error _ => db
  | .ok summary =>
    let typedEntities := extractEntitiesWithTypes net apiKey content
    let keyPoints := extractKeyPoints net apiKey content
    let entityNames := typedEntities.map (·.name)
    if db.docs.any (fun d => d.id == docId) then
      let db1 := updateDocAI docId summary entityNames keyPoints (embedCounts content) db
      mergeDocument uid docId typedEntities db1
    else db

/-- The AI-processing gate shared by POST (line 282) and PATCH (line 307):
`content && content.length > 20 && !content.startsWith("[File:")`. -/
def shouldProcessContent (content : String) : Bool :=
  content != "" && decide (content.length > 20) && !(jsStartsWith content "[File:")

/-- `prisma.document.create` as performed by POST (lines 268–279): raw
content capped at 50000 characters, every AI-derived column null. -/
def createDocument (uid title content docId : String) (db : DB) : DB :=
  { db with docs := db.docs ++
      [{ id := docId, userId := uid, title := title, content := jsTake content 50000,
         summary := none, entities := none, keyPoints := none, tags := none,
         embedding := none }] }

/-- The POST handler after authentication (lines 264–286): reject an empty
title, store the document, and run AI processing only when the gate passes.
The id issued by the store for the new row is a parameter. -/
def POSTmodel (net : Net) (apiKey : Option String)
    (uid title content docId : String) (db : DB) : DB :=
  if title == "" then db
  else
    let db1 := createDocument uid title content docId db
    if shouldProcessContent content then
      processDocumentWithAI net apiKey docId content uid db1
    else db1

/-- The PATCH handler after authentication (lines 295–311): re-process an
owned document only when its stored content passes the gate. -/
def PATCHmodel (net : Net) (apiKey : Option String) (uid docId : String) (db : DB) : DB :=
  match db.docs.find? (fun d => d.id == docId) with
  | none => db
  | some doc =>
    if doc.userId != uid then db
    else if shouldProcessContent doc.content then
      processDocumentWithAI net apiKey docId doc.content uid db
    else db

/-- Store well-formedness: node ids are distinct and below the id counter,
and `(ownerId, label)` is a key (at most one row per pair).  All three are
maintained by the merge and hold for any store reachable from an empty
one. -/
def DB.nodesWF (db : DB) : Prop :=
  (db.nodes.map (·.id)).Nodup ∧
  (∀ n ∈ db.nodes, n.id < db.nextNodeId) ∧
  (∀ n ∈ db.nodes, ∀ m ∈ db.nodes, n.userId = m.userId → n.label = m.label → n = m)

/-- Look a node row up by id. -/
def DB.nodeById (db : DB) (i : Nat) : Option KnowledgeNode :=
  db.nodes.find? (fun n => n.id == i)

/-- The connections stored for `(uid, label)` before a merge (empty when no
such node exists — a freshly created node starts with no connections). -/
def prevConns (db : DB) (uid label : String) : List Nat :=
  match db.findNode uid label with
  | some n => n.connections
  | none => []

/-- The ids of the nodes of the given entity names, looked up in a store. -/
def entityIds (db : DB) (uid : String) (names : List String) : Finset Nat :=
  (names.filterMap (fun m => (db.findNode uid m).map (·.id))).toFinset

/-- Decidable equality for gateway results (used to evaluate concrete
scenarios). -/
instance : DecidableEq (Except String String) := fun a b =>
  match a, b with
  | .error x, .error y =>
    if h : x = y then isTrue (by rw [h]) else isFalse (fun hh => h (by cases hh; rfl))
  | .ok x, .ok y =>
    if h : x = y then isTrue (by rw [h]) else isFalse (fun hh => h (by cases hh; rfl))
  | .error _, .ok _ => isFalse (fun hh => Except.noConfusion hh)
  | .ok _, .error _ => isFalse (fun hh => Except.noConfusion hh)

/-! ## Concrete scenarios used to instantiate the theorems -/

/-- A network on which every request fails with a transport error. -/
def cexNetDown : Net := fun _ _ => .exn "connection reset"

/-- Options carrying an explicit model override. -/
def cexOpts : ChatOptions :=
  { messages := [⟨.user, "hello"⟩], maxTokens := none, temperature := none,
    stream := none, model := some "my/model" }

/-- A network on which the entity-extraction request succeeds with one typed
entity while every other request (in particular the summary request) fails
with a transport error. -/
def cexNetSummaryDown : Net := fun _ opts =>
  if opts.messages.any (fun m => m.content == entitySystemPrompt) then
    .response 200 "[\x7b\"name\":\"A\",\"type\":\"concept\"\x7d]"
  else .exn "network down"

/-- A network on which the entity-extraction request succeeds with one typed
entity and every other request succeeds with a plain text body. -/
def cexNetAllOk : Net := fun _ opts =>
  if opts.messages.any (fun m => m.content == entitySystemPrompt) then
    .response 200 "[\x7b\"name\":\"A\",\"type\":\"concept\"\x7d]"
  else .response 200 "fine"

/-- A network answering every request with a fixed body. -/
def cexNetBody (body : String) : Net := fun _ _ => .response 200 body

/-- A stored document titled `T`. -/
def cexDoc : DocumentRec :=
  { id := "d1", userId := "u", title := "T", content := "c",
    summary := none, entities := none, keyPoints := none, tags := none,
    embedding := none }

/-- A store holding only `cexDoc`, with an empty graph. -/
def cexDB : DB := { docs := [cexDoc], nodes := [], nextNodeId := 0 }

/-- One typed entity named like the stored document's title. -/
def cexEntsT : List TypedEntity := [⟨"T", .concept⟩]

/-- Two typed entities distinct from the document title. -/
def cexEntsAB : List TypedEntity := [⟨"A", .concept⟩, ⟨"B", .idea⟩]

/-- A store with a document titled `MyDoc` and an existing document node for
it carrying one connection. -/
def cexDBDocNode : DB :=
  { docs := [{ id := "d2", userId := "u", title := "MyDoc", content := "c",
               summary := none, entities := none, keyPoints := none,
               tags := none, embedding := none }],
    nodes := [⟨5, "u", "MyDoc", "document", "Source document", 2, [42]⟩],
    nextNodeId := 6 }

/-- A store holding a single generic `entity` node labelled `A`. -/
def cexDBNodeA : DB :=
  { docs := [], nodes := [⟨7, "u", "A", "entity", "Extracted from document", 1, [3]⟩],
    nextNodeId := 8 }

/-! ## C1: blocking gateway fallback -/

/-- Success characterization of the fallback loop: it returns `ok c` exactly
when the candidate list splits into a prefix of failing candidates followed
by one that succeeds with `c`. -/
theorem chatLoop_ok_iff (net : Net) (opts : ChatOptions) :
    ∀ (ms : List String) (last : Option String) (c : String),
      chatLoop net opts ms last = .ok c ↔
        ∃ p m suf, ms = p ++ m :: suf ∧
          (∀ x ∈ p, ∃ e, tryModel net opts x = .error e) ∧
          tryModel net opts m = .ok c := by
  intro ms
  induction ms with
  | nil =>
    intro last c
    simp only [chatLoop]
    constructor
    · intro h; exact absurd h (by simp)
    · rintro ⟨p, m, suf, h, -, -⟩
      exact absurd h (by simp)
  | cons m rest ih =>
    intro last c
    simp only [chatLoop]
    cases htry : tryModel net opts m with
    | ok c' =>
      constructor
      · intro h
        refine ⟨[], m, rest, rfl, by simp, ?_⟩
        rw [htry]; exact h
      · rintro ⟨p, m', suf, hsplit, hfail, hok⟩
        cases p with
        | nil =>
          simp only [List.nil_append, List.cons.injEq] at hsplit
          rw [← hsplit.1] at hok
          rw [htry] at hok
          exact hok
        | cons x p' =>
          simp only [List.cons_append, List.cons.injEq] at hsplit
          obtain ⟨e, he⟩ := hfail x (by simp)
          rw [← hsplit.1, htry] at he
          exact absurd he (by simp)
    | error e =>
      rw [ih]
      constructor
      · rintro ⟨p, m', suf, hsplit, hfail, hok⟩
        refine ⟨m :: p, m', suf, by rw [hsplit, List.cons_append], ?_, hok⟩
        intro x hx
        rcases List.mem_cons.1 hx with h | h
        · exact ⟨e, by rw [h, htry]⟩
        · exact hfail x h
      · rintro ⟨p, m', suf, hsplit, hfail, hok⟩
        cases p with
        | nil =>
          simp only [List.nil_append, List.cons.injEq] at hsplit
          rw [← hsplit.1, htry] at hok
          exact absurd hok (by simp)
        | cons x p' =>
          simp only [List.cons_append, List.cons.injEq] at hsplit
          exact ⟨p', m', suf, hsplit.2, fun y hy => hfail y (by simp [hy]), hok⟩

/-- Exhaustion behaviour of the fallback loop: when every candidate fails,
the loop raises the failure of the last candidate. -/
theorem chatLoop_allFail (net : Net) (opts : ChatOptions) :
    ∀ (ms : List String) (last : Option String), ms ≠ [] →
      (∀ m ∈ ms, ∃ e, tryModel net opts m = .error e) →
      ∃ e mlast, ms.getLast? = some mlast ∧ tryModel net opts mlast = .error e ∧
        chatLoop net opts ms last = .error e := by
  intro ms
  induction ms with
  | nil => intro _ h; exact absurd rfl h
  | cons m rest ih =>
    intro last _ hfail
    obtain ⟨e, he⟩ := hfail m (by simp)
    cases rest with
    | nil =>
      refine ⟨e, m, rfl, he, ?_⟩
      simp only [chatLoop, he]
      rfl
    | cons r rs =>
      obtain ⟨e', mlast, hlast, herr, hloop⟩ :=
        ih (some e) (by simp) (fun x hx => hfail x (by simp [hx]))
      refine ⟨e', mlast, ?_, herr, ?_⟩
      · rw [List.getLast?_cons_cons]; exact hlast
      · simp only [chatLoop, he]
        exact hloop

/-- The candidate list is never empty. -/
theorem candidateModels_ne_nil (model : Option String) : candidateModels model ≠ [] := by
  have hM : MODELS ≠ [] := by unfold MODELS; simp
  cases model with
  | none => exact hM
  | some m =>
    by_cases h : (m == "") = true
    · simpa [candidateModels, h] using hM
    · simp only [candidateModels, h, if_false]
      simp

/-- C1: for every completion request (with the credential configured), the
blocking gateway tries the ordered candidate list — the caller's explicit
model first when given (and not empty/falsy), then the fixed fallback list
`MODELS`; a non-2xx response, a thrown network error (timeout or transport
failure), or an empty completion body each count as that candidate's
failure; the gateway returns the first non-empty successful completion, and
returns an error only when every candidate has failed, in which case the
error is the last candidate's underlying failure. -/
theorem nvidiaChat_fallback_spec (net : Net) (apiKey : String) (opts : ChatOptions) :
    (opts.model = none → candidateModels opts.model = MODELS) ∧
    (∀ m, opts.model = some m → m ≠ "" → candidateModels opts.model = m :: MODELS) ∧
    (∀ m st content, net m opts = .response st content → ¬(200 ≤ st ∧ st < 300) →
      tryModel net opts m = .error ("NVIDIA API error: " ++ toString st)) ∧
    (∀ m st, net m opts = .response st "" → (200 ≤ st ∧ st < 300) →
      tryModel net opts m = .error "Empty response from AI") ∧
    (∀ m msg, net m opts = .exn msg → tryModel net opts m = .error msg) ∧
    (∀ c, nvidiaChat net (some apiKey) opts = .ok c ↔
      ∃ p m suf, candidateModels opts.model = p ++ m :: suf ∧
        (∀ x ∈ p, ∃ e, tryModel net opts x = .error e) ∧
        tryModel net opts m = .ok c) ∧
    ((∀ m ∈ candidateModels opts.model, ∃ e, tryModel net opts m = .error e) →
      ∃ e mlast, (candidateModels opts.model).getLast? = some mlast ∧
        tryModel net opts mlast = .error e ∧
        nvidiaChat net (some apiKey) opts = .error e) := by
  refine ⟨?_, ?_, ?_, ?_, ?_, ?_, ?_⟩
  · intro h; rw [h]; rfl
  · intro m h hne
    rw [h]
    simp only [candidateModels]
    rw [if_neg (by simpa using hne)]
  · intro m st content hnet hst
    simp only [tryModel, hnet, if_neg hst]
  · intro m st hnet hst
    simp only [tryModel, hnet, if_pos hst]
    rfl
  · intro m msg hnet
    simp only [tryModel, hnet]
  · intro c
    exact chatLoop_ok_iff net opts (candidateModels opts.model) none c
  · intro hfail
    exact chatLoop_allFail net opts (candidateModels opts.model) none
      (candidateModels_ne_nil opts.model) hfail

/-- Witness for C1: on a network where every request raises a transport
error, a request with an explicit model override (tried first, ahead of the
fixed fallback list) ends with an aggregate failure carrying the last
candidate's cause. -/
theorem nvidiaChat_fallback_spec_witness :
    candidateModels cexOpts.model = "my/model" :: MODELS ∧
    (∃ e mlast, (candidateModels cexOpts.model).getLast? = some mlast ∧
      tryModel cexNetDown cexOpts mlast = .error e ∧
      nvidiaChat cexNetDown (some "key") cexOpts = .error e) := by
  have h := nvidiaChat_fallback_spec cexNetDown "key" cexOpts
  refine ⟨h.2.1 "my/model" (by decide) (by decide), ?_⟩
  exact h.2.2.2.2.2.2 (fun m _ => ⟨"connection reset", rfl⟩)

/-! ## C5: streaming gateway re-framing -/

/-- When a chunk's line loop closes the stream, its last emitted event is
the `[DONE]` sentinel. -/
theorem processChunkLines_closed_getLast (ls : List String) :
    (processChunkLines ls).2 = true →
    (processChunkLines ls).1.getLast? = some doneEvent := by
  induction ls with
  | nil => intro h; exact absurd h (by simp [processChunkLines])
  | cons l ls ih =>
    intro h
    simp only [processChunkLines] at h ⊢
    revert h
    cases handleStreamLine l with
    | done => intro _; rfl
    | skip => exact ih
    | emit c =>
      intro h
      have hlast := ih h
      show (contentEvent c :: (processChunkLines ls).1).getLast? = some doneEvent
      cases hp : (processChunkLines ls).1 with
      | nil => rw [hp] at hlast; exact absurd hlast (by simp)
      | cons a l' =>
        rw [hp] at hlast
        rw [List.getLast?_cons_cons]
        exact hlast

/-- The simulated output stream always terminates with the `[DONE]`
sentinel (on upstream `[DONE]` or on upstream exhaustion). -/
theorem nvidiaChatStreamSim_getLast (chunks : List String) :
    (nvidiaChatStreamSim chunks).getLast? = some doneEvent := by
  induction chunks with
  | nil => rfl
  | cons chunk rest ih =>
    simp only [nvidiaChatStreamSim]
    by_cases h : (processChunkLines (jsSplitLines chunk)).2 = true
    · rw [if_pos h]
      exact processChunkLines_closed_getLast _ h
    · rw [if_neg h]
      have hne : nvidiaChatStreamSim rest ≠ [] := by
        intro hnil
        rw [hnil] at ih
        exact absurd ih (by simp)
      rw [List.getLast?_append_of_ne_nil _ hne]
      exact ih

/-- C5: the streaming gateway re-frames each upstream `data: <json>` line by
extracting only `choices[0].delta.content` and re-emitting it as its own
`data: {"content": <delta>}` event; an upstream `data: [DONE]` line closes
the stream with the `[DONE]` sentinel, which is also emitted on stream
exhaustion; a `data:` line whose payload fails to parse is silently dropped
(the stream continues); and the upstream stream of one `"Hi"` delta followed
by `[DONE]` yields exactly one re-framed content event followed by the
sentinel. -/
theorem nvidiaChatStream_reframe_spec :
    (∀ line j c, jsStartsWith line "data: " = true →
      jsTrim (jsDrop line 6) ≠ "[DONE]" →
      jsonParse (jsTrim (jsDrop line 6)) = some j →
      deltaContent j = some c → c.truthy = true →
      handleStreamLine line = .emit c) ∧
    (∀ line, jsStartsWith line "data: " = true →
      jsTrim (jsDrop line 6) = "[DONE]" → handleStreamLine line = .done) ∧
    (∀ line, jsStartsWith line "data: " = true →
      jsTrim (jsDrop line 6) ≠ "[DONE]" →
      jsonParse (jsTrim (jsDrop line 6)) = none →
      handleStreamLine line = .skip) ∧
    (∀ chunks, (nvidiaChatStreamSim chunks).getLast? = some doneEvent) ∧
    (∀ c, contentEvent c = "data: " ++ (Json.obj [("content", c)]).stringify ++ "\n\n") ∧
    nvidiaChatStreamSim
      ["data: \x7b\"choices\":[\x7b\"delta\":\x7b\"content\":\"Hi\"\x7d\x7d]\x7d\n\n",
       "data: [DONE]\n\n"]
      = [contentEvent (Json.str "Hi"), doneEvent] ∧
    contentEvent (Json.str "Hi") = "data: \x7b\"content\":\"Hi\"\x7d\n\n" := by
  refine ⟨?_, ?_, ?_, nvidiaChatStreamSim_getLast, fun _ => rfl, by decide, by decide⟩
  · intro line j c hdata hndone hparse hdelta htruthy
    have h1 : (jsTrim (jsDrop line 6) == "[DONE]") = false := by simpa using hndone
    simp [handleStreamLine, hdata, h1, hparse, hdelta, htruthy]
  · intro line hdata hdone
    have h1 : (jsTrim (jsDrop line 6) == "[DONE]") = true := by simpa using hdone
    simp [handleStreamLine, hdata, h1]
  · intro line hdata hndone hparse
    have h1 : (jsTrim (jsDrop line 6) == "[DONE]") = false := by simpa using hndone
    simp [handleStreamLine, hdata, h1, hparse]

/-- Witness for C5: the general emit and drop clauses applied to a concrete
delta-bearing line and a concrete malformed line. -/
theorem nvidiaChatStream_reframe_spec_witness :
    handleStreamLine "data: \x7b\"choices\":[\x7b\"delta\":\x7b\"content\":\"Hi\"\x7d\x7d]\x7d"
      = .emit (Json.str "Hi") ∧
    handleStreamLine "data: oops" = .skip := by
  constructor
  · exact nvidiaChatStream_reframe_spec.1
      "data: \x7b\"choices\":[\x7b\"delta\":\x7b\"content\":\"Hi\"\x7d\x7d]\x7d"
      (Json.obj [("choices", Json.arr [Json.obj [("delta", Json.obj [("content", Json.str "Hi")])]])])
      (Json.str "Hi") (by decide) (by decide) (by decide) (by decide) (by decide)
  · exact nvidiaChatStream_reframe_spec.2.2.1 "data: oops" (by decide) (by decide) (by decide)

/-! ## C6: typed-entity extraction -/

/-- C6: `extractEntitiesWithTypes` truncates its input to 4000 characters
(the request's user message is the truncated text, and the result depends on
the input only through that truncation); a gateway failure, a response that
does not parse as JSON, or one that parses to a non-array all yield the
empty list (the function is total, so it never throws); on an array
response, entries without a truthy string `name` are dropped, an invalid or
missing `type` defaults to `entity`, and the first 20 surviving entries are
returned in model order — in particular the result never exceeds 20 entries
and every returned name is non-empty. -/
theorem extractEntitiesWithTypes_spec (net : Net) (apiKey : Option String) (text : String) :
    (entityOptions text).messages =
      [⟨.system, entitySystemPrompt⟩, ⟨.user, jsTake text 4000⟩] ∧
    (∀ t', jsTake t' 4000 = jsTake text 4000 →
      extractEntitiesWithTypes net apiKey t' = extractEntitiesWithTypes net apiKey text) ∧
    (extractEntitiesWithTypes net apiKey text).length ≤ 20 ∧
    (∀ e, nvidiaChat net apiKey (entityOptions text) = .error e →
      extractEntitiesWithTypes net apiKey text = []) ∧
    (∀ r, nvidiaChat net apiKey (entityOptions text) = .ok r →
      jsonParse (cleanAIResponse r) = none →
      extractEntitiesWithTypes net apiKey text = []) ∧
    (∀ r j, nvidiaChat net apiKey (entityOptions text) = .ok r →
      jsonParse (cleanAIResponse r) = some j → (∀ xs, j ≠ Json.arr xs) →
      extractEntitiesWithTypes net apiKey text = []) ∧
    (∀ r xs, nvidiaChat net apiKey (entityOptions text) = .ok r →
      jsonParse (cleanAIResponse r) = some (Json.arr xs) →
      extractEntitiesWithTypes net apiKey text =
        ((xs.filter validEntityJson).map
          (fun e => TypedEntity.mk (entityName e) (entityTypeOf e))).take 20) ∧
    (∀ ent ∈ extractEntitiesWithTypes net apiKey text, ent.name ≠ "") := by
  refine ⟨rfl, ?_, ?_, ?_, ?_, ?_, ?_, ?_⟩
  · intro t' h
    simp only [extractEntitiesWithTypes, entityOptions, h]
  · simp only [extractEntitiesWithTypes]
    split
    · simp
    · split
      · simp only [List.length_take]; omega
      · simp
  · intro e he
    simp only [extractEntitiesWithTypes, he]
  · intro r hr hparse
    simp only [extractEntitiesWithTypes, hr, hparse]
  · intro r j hr hparse hnarr
    simp only [extractEntitiesWithTypes, hr, hparse]
    cases j with
    | arr xs => exact absurd rfl (hnarr xs)
    | null => rfl
    | bool b => rfl
    | num n => rfl
    | str s => rfl
    | obj fs => rfl
  · intro r xs hr hparse
    simp only [extractEntitiesWithTypes, hr, hparse]
  · intro ent hent
    simp only [extractEntitiesWithTypes] at hent
    revert hent
    split
    · intro h; exact absurd h (by simp)
    · split
      · intro hent
        obtain ⟨e, he, rfl⟩ := List.mem_map.1 (List.mem_of_mem_take hent)
        have hv := (List.mem_filter.1 he).2
        simp only [validEntityJson, Bool.and_eq_true] at hv
        revert hv
        cases hf : Json.getField e "name" with
        | none => intro hv; exact absurd hv.2 (by simp)
        | some j =>
          cases j with
          | str s =>
            intro hv
            have : s ≠ "" := by simpa using hv.2
            simpa [entityName, hf] using this
          | null => intro hv; exact absurd hv.2 (by simp)
          | bool b => intro hv; exact absurd hv.2 (by simp)
          | num n => intro hv; exact absurd hv.2 (by simp)
          | arr l => intro hv; exact absurd hv.2 (by simp)
          | obj fs => intro hv; exact absurd hv.2 (by simp)
      · intro h; exact absurd h (by simp)

/-- Witness for C6: a non-JSON body degrades to the empty list, and a
fenced array with an invalid name, a non-object entry, a missing type and a
specific type is validated, defaulted and capped as specified. -/
theorem extractEntitiesWithTypes_spec_witness :
    extractEntitiesWithTypes (cexNetBody "oops") (some "k") "text" = [] ∧
    extractEntitiesWithTypes
      (cexNetBody "```json\n[\x7b\"name\":\"A\"\x7d,\x7b\"name\":5\x7d,\"x\",\x7b\"name\":\"B\",\"type\":\"idea\"\x7d]\n```")
      (some "k") "text" = [⟨"A", .entity⟩, ⟨"B", .idea⟩] := by
  constructor
  · exact (extractEntitiesWithTypes_spec (cexNetBody "oops") (some "k") "text").2.2.2.2.1
      "oops" (by decide) (by decide)
  · have h := (extractEntitiesWithTypes_spec
      (cexNetBody "```json\n[\x7b\"name\":\"A\"\x7d,\x7b\"name\":5\x7d,\"x\",\x7b\"name\":\"B\",\"type\":\"idea\"\x7d]\n```")
      (some "k") "text").2.2.2.2.2.2.1
      "```json\n[\x7b\"name\":\"A\"\x7d,\x7b\"name\":5\x7d,\"x\",\x7b\"name\":\"B\",\"type\":\"idea\"\x7d]\n```"
      [Json.obj [("name", Json.str "A")], Json.obj [("name", Json.num 5)], Json.str "x",
       Json.obj [("name", Json.str "B"), ("type", Json.str "idea")]]
      (by decide) (by decide)
    rw [h]
    decide

/-! ## C7: key-point extraction -/

/-- Counterexample for C7: on the parsed array `["a", 5]` the source returns
the number `5` unchanged — returned entries are not validated against the
array-of-string contract. -/
theorem extractKeyPoints_unvalidated_cex :
    extractKeyPoints (cexNetBody "[\"a\",5]") (some "k") "text" = [Json.str "a", Json.num 5] ∧
    Json.num 5 ∈ extractKeyPoints (cexNetBody "[\"a\",5]") (some "k") "text" ∧
    (∀ s, Json.num 5 ≠ Json.str s) :=
  ⟨by decide, by decide, fun _ h => Json.noConfusion h⟩

/-- C7 (amended): `extractKeyPoints` truncates its input to 4000 characters
and applies the same fence cleanup as the entity extractor, caps the result
at the first 10 entries, and is fail-soft to the empty list on any gateway,
parse, or shape failure — but it does *not* validate the entries of a parsed
array: they are returned as-is (`parsed.slice(0, 10)`), whatever their
type. -/
theorem extractKeyPoints_spec (net : Net) (apiKey : Option String) (text : String) :
    (keyPointOptions text).messages =
      [⟨.system, keyPointSystemPrompt⟩, ⟨.user, jsTake text 4000⟩] ∧
    (∀ t', jsTake t' 4000 = jsTake text 4000 →
      extractKeyPoints net apiKey t' = extractKeyPoints net apiKey text) ∧
    (extractKeyPoints net apiKey text).length ≤ 10 ∧
    (∀ e, nvidiaChat net apiKey (keyPointOptions text) = .error e →
      extractKeyPoints net apiKey text = []) ∧
    (∀ r, nvidiaChat net apiKey (keyPointOptions text) = .ok r →
      jsonParse (cleanAIResponse r) = none → extractKeyPoints net apiKey text = []) ∧
    (∀ r j, nvidiaChat net apiKey (keyPointOptions text) = .ok r →
      jsonParse (cleanAIResponse r) = some j → (∀ xs, j ≠ Json.arr xs) →
      extractKeyPoints net apiKey text = []) ∧
    (∀ r xs, nvidiaChat net apiKey (keyPointOptions text) = .ok r →
      jsonParse (cleanAIResponse r) = some (Json.arr xs) →
      extractKeyPoints net apiKey text = xs.take 10) := by
  refine ⟨rfl, ?_, ?_, ?_, ?_, ?_, ?_⟩
  · intro t' h
    simp only [extractKeyPoints, keyPointOptions, h]
  · simp only [extractKeyPoints]
    split
    · simp
    · split
      · simp only [List.length_take]; omega
      · simp
  · intro e he
    simp only [extractKeyPoints, he]
  · intro r hr hparse
    simp only [extractKeyPoints, hr, hparse]
  · intro r j hr hparse hnarr
    simp only [extractKeyPoints, hr, hparse]
    cases j with
    | arr xs => exact absurd rfl (hnarr xs)
    | null => rfl
    | bool b => rfl
    | num n => rfl
    | str s => rfl
    | obj fs => rfl
  · intro r xs hr hparse
    simp only [extractKeyPoints, hr, hparse]

/-- Witness for C7 (amended): fail-soft on a non-JSON body, and a fenced
12-element array capped to its first 10 entries unvalidated. -/
theorem extractKeyPoints_spec_witness :
    extractKeyPoints (cexNetBody "nope") (some "k") "text" = [] ∧
    extractKeyPoints (cexNetBody "```json\n[1,2,3,4,5,6,7,8,9,10,11,12]\n```")
      (some "k") "text" =
      [Json.num 1, Json.num 2, Json.num 3, Json.num 4, Json.num 5, Json.num 6,
       Json.num 7, Json.num 8, Json.num 9, Json.num 10] := by
  constructor
  · exact (extractKeyPoints_spec (cexNetBody "nope") (some "k") "text").2.2.2.2.1
      "nope" (by decide) (by decide)
  · have h := (extractKeyPoints_spec (cexNetBody "```json\n[1,2,3,4,5,6,7,8,9,10,11,12]\n```")
      (some "k") "text").2.2.2.2.2.2
      "```json\n[1,2,3,4,5,6,7,8,9,10,11,12]\n```"
      [Json.num 1, Json.num 2, Json.num 3, Json.num 4, Json.num 5, Json.num 6,
       Json.num 7, Json.num 8, Json.num 9, Json.num 10, Json.num 11, Json.num 12]
      (by decide) (by decide)
    rw [h]
    decide

/-! ## C8: embedding generator -/

/-- The squared-norm accumulator of the source is the sum of squares. -/
theorem foldl_add_sq (v : List ℝ) : ∀ a : ℝ,
    v.foldl (fun s x => s + x * x) a = a + (v.map (fun x => x * x)).sum := by
  induction v with
  | nil => intro a; simp
  | cons x xs ih =>
    intro a
    simp only [List.foldl_cons, List.map_cons, List.sum_cons, ih]
    ring

/-- `bump` preserves the vector length. -/
theorem bump_length (v : List Nat) (i : Nat) : (bump v i).length = v.length := by
  simp [bump]

/-- `wordCounts` preserves the vector length. -/
theorem wordCounts_length (w : List Char) : ∀ v : List Nat,
    (wordCounts v w).length = v.length := by
  simp only [wordCounts]
  generalize w.enum = l
  induction l with
  | nil => intro v; rfl
  | cons p ps ih =>
    intro v
    simp only [List.foldl_cons, ih, bump_length]

/-- The accumulated bucket vector always has dimension 128. -/
theorem embedCounts_length (text : String) : (embedCounts text).length = 128 := by
  simp only [embedCounts]
  generalize jsSplitWs (jsToLower text) = ws
  induction ws using List.reverseRecOn with
  | nil => simp
  | append_singleton ws w ih =>
    rw [List.foldl_append, List.foldl_cons, List.foldl_nil, wordCounts_length, ih]

/-- C8: `generateEmbeddingSimple` is a pure total function returning a
length-128 vector; whenever some bucket count is non-zero the returned
vector has Euclidean norm exactly 1 (the real-arithmetic model of the
float computation); and on the empty input the zero vector is returned
unchanged. -/
theorem generateEmbeddingSimple_spec (text : String) :
    (generateEmbeddingSimple text).length = 128 ∧
    (embedCounts text ≠ List.replicate 128 0 →
      l2norm (generateEmbeddingSimple text) = 1) ∧
    generateEmbeddingSimple "" = List.replicate 128 (0 : ℝ) := by
  refine ⟨?_, ?_, ?_⟩
  · simp only [generateEmbeddingSimple]
    split
    · rw [List.length_map, List.length_map, embedCounts_length]
    · rw [List.length_map, embedCounts_length]
  · intro hne
    have hlen : (embedCounts text).length = 128 := embedCounts_length text
    -- some bucket is non-zero
    obtain ⟨b, hb, hbne⟩ : ∃ b ∈ embedCounts text, b ≠ 0 := by
      by_contra hall
      push_neg at hall
      exact hne (by rw [← hlen]; exact List.eq_replicate_length.2 hall)
    set e : List ℝ := (embedCounts text).map (fun n : Nat => (n : ℝ)) with he
    set S : ℝ := (e.map (fun x => x * x)).sum with hS
    have hSnonneg : ∀ x ∈ e.map (fun x => x * x), (0 : ℝ) ≤ x := by
      intro x hx
      obtain ⟨y, -, rfl⟩ := List.mem_map.1 hx
      exact mul_self_nonneg y
    have hSpos : 0 < S := by
      have hmem : ((b : ℝ) * b) ∈ e.map (fun x => x * x) := by
        refine List.mem_map.2 ⟨(b : ℝ), List.mem_map.2 ⟨b, hb, rfl⟩, rfl⟩
      have hle : ((b : ℝ) * b) ≤ S := List.single_le_sum hSnonneg _ hmem
      have hbpos : (0 : ℝ) < (b : ℝ) * b := by
        have : (0 : ℝ) < (b : ℝ) := by exact_mod_cast Nat.pos_of_ne_zero hbne
        positivity
      exact lt_of_lt_of_le hbpos hle
    have hsq : Real.sqrt S * Real.sqrt S = S := Real.mul_self_sqrt hSpos.le
    have hfold : e.foldl (fun s x => s + x * x) 0 = S := by
      rw [foldl_add_sq, zero_add, ← hS]
    have hnormpos : 0 < Real.sqrt (e.foldl (fun s x => s + x * x) 0) := by
      rw [hfold]
      exact Real.sqrt_pos.2 hSpos
    simp only [generateEmbeddingSimple, l2norm]
    rw [← he]
    rw [if_pos hnormpos]
    rw [hfold]
    rw [foldl_add_sq, zero_add]
    have hmaps : ((e.map (fun v => v / Real.sqrt S)).map (fun x => x * x)).sum = 1 := by
      rw [List.map_map]
      have hfun : ((fun x => x * x) ∘ fun v => v / Real.sqrt S) =
          fun v => (v * v) * (S⁻¹) := by
        funext v
        have hS0 : Real.sqrt S ≠ 0 := (Real.sqrt_pos.2 hSpos).ne'
        field_simp
      rw [hfun]
      rw [List.sum_map_mul_right, ← hS]
      exact mul_inv_cancel₀ hSpos.ne'
    rw [hmaps, Real.sqrt_one]
  · have hz : embedCounts "" = List.replicate 128 0 := by decide
    simp only [generateEmbeddingSimple, hz]
    have he0 : (List.replicate 128 (0 : Nat)).map (fun n : Nat => (n : ℝ)) =
        List.replicate 128 (0 : ℝ) := by
      rw [List.map_replicate]
      norm_num
    rw [he0]
    have hsum : (List.replicate 128 (0 : ℝ)).foldl (fun s x => s + x * x) 0 = 0 := by
      rw [foldl_add_sq, zero_add, List.map_replicate]
      simp
    rw [hsum, Real.sqrt_zero]
    simp

/-- Witness for C8: the single-character input `"a"` has a non-zero bucket
vector, hence a unit-norm embedding. -/
theorem generateEmbeddingSimple_spec_witness :
    embedCounts "a" ≠ List.replicate 128 0 ∧ l2norm (generateEmbeddingSimple "a") = 1 :=
  ⟨by decide, (generateEmbeddingSimple_spec "a").2.1 (by decide)⟩

/-! ## Store lemmas -/

/-- `find?` commutes with a map that preserves the predicate. -/
theorem find?_map_comm {α : Type} (f : α → α) (p : α → Bool)
    (h : ∀ a, p (f a) = p a) :
    ∀ l : List α, (l.map f).find? p = (l.find? p).map f := by
  intro l
  induction l with
  | nil => rfl
  | cons a l ih =>
    simp only [List.map_cons, List.find?_cons]
    rw [h a]
    cases hp : p a with
    | true => rfl
    | false => exact ih

/-- `find?` over an append searches the first list first. -/
theorem find?_append_or {α : Type} (p : α → Bool) :
    ∀ l₁ l₂ : List α, (l₁ ++ l₂).find? p = (l₁.find? p).or (l₂.find? p) := by
  intro l₁ l₂
  induction l₁ with
  | nil => rfl
  | cons a l ih =>
    simp only [List.cons_append, List.find?_cons]
    cases hp : p a with
    | true => rfl
    | false => exact ih

@[simp] theorem applyPatch_id (p : NodePatch) (n : KnowledgeNode) :
    (applyPatch p n).id = n.id := by cases p <;> rfl

@[simp] theorem applyPatch_userId (p : NodePatch) (n : KnowledgeNode) :
    (applyPatch p n).userId = n.userId := by cases p <;> rfl

@[simp] theorem applyPatch_label (p : NodePatch) (n : KnowledgeNode) :
    (applyPatch p n).label = n.label := by cases p <;> rfl

@[simp] theorem applyPatch_strengthType_connections (s : ℚ) (ty : Option String)
    (n : KnowledgeNode) : (applyPatch (.strengthType s ty) n).connections = n.connections := rfl

@[simp] theorem applyPatch_conns_strength (cs : List Nat) (n : KnowledgeNode) :
    (applyPatch (.conns cs) n).strength = n.strength := rfl

@[simp] theorem applyPatch_conns_type (cs : List Nat) (n : KnowledgeNode) :
    (applyPatch (.conns cs) n).type = n.type := rfl

@[simp] theorem updateNode_docs (db : DB) (i : Nat) (p : NodePatch) :
    (db.updateNode i p).docs = db.docs := rfl

@[simp] theorem updateNode_nextNodeId (db : DB) (i : Nat) (p : NodePatch) :
    (db.updateNode i p).nextNodeId = db.nextNodeId := rfl

theorem updateNode_nodes (db : DB) (i : Nat) (p : NodePatch) :
    (db.updateNode i p).nodes =
      db.nodes.map (fun n => if n.id == i then applyPatch p n else n) := rfl

theorem updateNode_map_id (db : DB) (i : Nat) (p : NodePatch) :
    (db.updateNode i p).nodes.map (·.id) = db.nodes.map (·.id) := by
  rw [updateNode_nodes, List.map_map]
  congr 1
  funext n
  by_cases h : n.id = i
  · simp [h]
  · simp [h]

theorem findNode_updateNode (db : DB) (i : Nat) (p : NodePatch) (uid l : String) :
    (db.updateNode i p).findNode uid l =
      (db.findNode uid l).map (fun n => if n.id == i then applyPatch p n else n) := by
  unfold DB.findNode
  rw [updateNode_nodes]
  exact find?_map_comm _ _ (fun n => by by_cases h : n.id == i <;> simp [h]) _

theorem nodeById_updateNode (db : DB) (i : Nat) (p : NodePatch) (j : Nat) :
    (db.updateNode i p).nodeById j =
      (db.nodeById j).map (fun n => if n.id == i then applyPatch p n else n) := by
  unfold DB.nodeById
  rw [updateNode_nodes]
  exact find?_map_comm _ _ (fun n => by by_cases h : n.id == i <;> simp [h]) _

@[simp] theorem createNode_docs (db : DB) (uid l ty d : String) (s : ℚ) (c : List Nat) :
    (db.createNode uid l ty d s c).1.docs = db.docs := rfl

theorem createNode_nodes (db : DB) (uid l ty d : String) (s : ℚ) (c : List Nat) :
    (db.createNode uid l ty d s c).1.nodes = db.nodes ++ [(db.createNode uid l ty d s c).2] := rfl

theorem createNode_snd (db : DB) (uid l ty d : String) (s : ℚ) (c : List Nat) :
    (db.createNode uid l ty d s c).2 =
      { id := db.nextNodeId, userId := uid, label := l, type := ty,
        description := d, strength := s, connections := c } := rfl

theorem findNode_createNode_self (db : DB) (uid l ty d : String) (s : ℚ) (c : List Nat)
    (h : db.findNode uid l = none) :
    (db.createNode uid l ty d s c).1.findNode uid l = some (db.createNode uid l ty d s c).2 := by
  unfold DB.findNode at h ⊢
  rw [createNode_nodes, find?_append_or, h]
  simp [createNode_snd]

theorem findNode_createNode_other (db : DB) (uid l ty d : String) (s : ℚ) (c : List Nat)
    (uid' l' : String) (h : uid' ≠ uid ∨ l' ≠ l) :
    (db.createNode uid l ty d s c).1.findNode uid' l' = db.findNode uid' l' := by
  unfold DB.findNode
  rw [createNode_nodes, find?_append_or]
  have hpred : ((db.createNode uid l ty d s c).2.userId == uid' &&
      (db.createNode uid l ty d s c).2.label == l') = false := by
    rw [createNode_snd]
    rcases h with h | h <;> simp [Ne.symm h]
  rw [List.find?_cons, hpred]
  simp

/-! ## Upsert lemmas -/

/-- A successful `findNode` characterizes its result. -/
theorem findNode_some_props {db : DB} {uid l : String} {n : KnowledgeNode}
    (h : db.findNode uid l = some n) :
    n ∈ db.nodes ∧ n.userId = uid ∧ n.label = l := by
  refine ⟨List.mem_of_find?_eq_some h, ?_, ?_⟩
  · have := List.find?_some h
    simp only [Bool.and_eq_true, beq_iff_eq] at this
    exact this.1
  · have := List.find?_some h
    simp only [Bool.and_eq_true, beq_iff_eq] at this
    exact this.2

/-- With distinct ids, two rows sharing an id are the same row. -/
theorem eq_of_mem_of_id_eq {l : List KnowledgeNode}
    (hnodup : (l.map (·.id)).Nodup) {n m : KnowledgeNode}
    (hn : n ∈ l) (hm : m ∈ l) (h : n.id = m.id) : n = m :=
  List.inj_on_of_nodup_map hnodup hn hm h

/-- The found branch of the upsert. -/
theorem upsertEntity_found {db : DB} {uid : String} {e : TypedEntity} {ex : KnowledgeNode}
    (h : db.findNode uid e.name = some ex) :
    upsertEntity uid e db = db.updateNode ex.id
      (.strengthType (ex.strength + 1 / 2)
        (if ex.type == "entity" && e.type.toStr != "entity"
         then some e.type.toStr else none)) := by
  unfold upsertEntity
  rw [h]

/-- The create branch of the upsert. -/
theorem upsertEntity_notFound {db : DB} {uid : String} {e : TypedEntity}
    (h : db.findNode uid e.name = none) :
    upsertEntity uid e db =
      (db.createNode uid e.name e.type.toStr "Extracted from document" 1 []).1 := by
  unfold upsertEntity
  rw [h]

@[simp] theorem upsertEntity_docs (uid : String) (e : TypedEntity) (db : DB) :
    (upsertEntity uid e db).docs = db.docs := by
  cases h : db.findNode uid e.name with
  | none => rw [upsertEntity_notFound h]; rfl
  | some ex => rw [upsertEntity_found h]; rfl

theorem upsertEntity_nextNodeId_le (uid : String) (e : TypedEntity) (db : DB) :
    db.nextNodeId ≤ (upsertEntity uid e db).nextNodeId := by
  cases h : db.findNode uid e.name with
  | none => rw [upsertEntity_notFound h]; exact Nat.le_succ _
  | some ex => rw [upsertEntity_found h]; exact Nat.le_refl _

/-- The upsert leaves the node of the entity present. -/
theorem findNode_upsertEntity_self (uid : String) (e : TypedEntity) (db : DB) :
    ((upsertEntity uid e db).findNode uid e.name).isSome := by
  cases h : db.findNode uid e.name with
  | none =>
    rw [upsertEntity_notFound h, findNode_createNode_self db _ _ _ _ _ _ h]
    rfl
  | some ex =>
    rw [upsertEntity_found h, findNode_updateNode, h]
    rfl

/-- An upsert never removes node presence for any key. -/
theorem findNode_upsertEntity_isSome_mono (uid : String) (e : TypedEntity) (db : DB)
    (uid' l : String) (h : (db.findNode uid' l).isSome) :
    ((upsertEntity uid e db).findNode uid' l).isSome := by
  cases hf : db.findNode uid e.name with
  | none =>
    rw [upsertEntity_notFound hf]
    unfold DB.findNode at h ⊢
    rw [createNode_nodes, find?_append_or]
    cases hx : db.nodes.find? (fun n => n.userId == uid' && n.label == l) with
    | none => rw [hx] at h; exact absurd h (by simp)
    | some n => rfl
  | some ex =>
    rw [upsertEntity_found hf, findNode_updateNode]
    cases hx : db.findNode uid' l with
    | none => rw [hx] at h; exact absurd h (by simp)
    | some n => rfl

/-- Frame: an upsert does not touch nodes under a different key. -/
theorem findNode_upsertEntity_other {db : DB} (uid : String) (e : TypedEntity)
    (hnodup : (db.nodes.map (·.id)).Nodup) (uid' l : String)
    (h : uid' ≠ uid ∨ l ≠ e.name) :
    (upsertEntity uid e db).findNode uid' l = db.findNode uid' l := by
  cases hf : db.findNode uid e.name with
  | none =>
    rw [upsertEntity_notFound hf]
    exact findNode_createNode_other db _ _ _ _ _ _ _ _ h
  | some ex =>
    rw [upsertEntity_found hf, findNode_updateNode]
    cases hx : db.findNode uid' l with
    | none => rfl
    | some n =>
      simp only [Option.map_some']
      obtain ⟨hexmem, hexuid, hexlabel⟩ := findNode_some_props hf
      obtain ⟨hnmem, hnuid, hnlabel⟩ := findNode_some_props hx
      have hne : n ≠ ex := by
        intro hcontra
        rcases h with h | h
        · exact h (by rw [← hnuid, hcontra, hexuid])
        · exact h (by rw [← hnlabel, hcontra, hexlabel])
      have hidne : n.id ≠ ex.id := fun hid => hne (eq_of_mem_of_id_eq hnodup hnmem hexmem hid)
      rw [if_neg (by simpa using hidne)]

/-- The upsert preserves store well-formedness. -/
theorem nodesWF_upsertEntity (uid : String) (e : TypedEntity) {db : DB}
    (hwf : db.nodesWF) : (upsertEntity uid e db).nodesWF := by
  obtain ⟨hnodup, hbound, huniq⟩ := hwf
  cases hf : db.findNode uid e.name with
  | some ex =>
    rw [upsertEntity_found hf]
    refine ⟨by rw [updateNode_map_id]; exact hnodup, ?_, ?_⟩
    · intro n hn
      rw [updateNode_nodes] at hn
      obtain ⟨m, hm, rfl⟩ := List.mem_map.1 hn
      by_cases h : m.id == ex.id
      · rw [if_pos h]
        simpa using hbound m hm
      · rw [if_neg h]
        exact hbound m hm
    · intro n hn m hm huid hlabel
      rw [updateNode_nodes] at hn hm
      obtain ⟨n₀, hn₀, rfl⟩ := List.mem_map.1 hn
      obtain ⟨m₀, hm₀, rfl⟩ := List.mem_map.1 hm
      have huid' : n₀.userId = m₀.userId := by
        by_cases h1 : (n₀.id == ex.id) = true <;> by_cases h2 : (m₀.id == ex.id) = true <;>
          simpa [h1, h2] using huid
      have hlabel' : n₀.label = m₀.label := by
        by_cases h1 : (n₀.id == ex.id) = true <;> by_cases h2 : (m₀.id == ex.id) = true <;>
          simpa [h1, h2] using hlabel
      rw [huniq n₀ hn₀ m₀ hm₀ huid' hlabel']
  | none =>
    rw [upsertEntity_notFound hf]
    have habsent : ∀ x ∈ db.nodes, ¬(x.userId = uid ∧ x.label = e.name) := by
      intro x hx hcontra
      have := List.find?_eq_none.1 hf x hx
      simp only [Bool.and_eq_true, beq_iff_eq] at this
      exact this ⟨hcontra.1, hcontra.2⟩
    refine ⟨?_, ?_, ?_⟩
    · rw [createNode_nodes, List.map_append]
      rw [List.nodup_append]
      refine ⟨hnodup, by simp, ?_⟩
      intro i hi hj
      simp only [createNode_snd, List.map_cons, List.map_nil, List.mem_cons,
        List.not_mem_nil, or_false] at hj
      obtain ⟨m, hm, rfl⟩ := List.mem_map.1 hi
      have := hbound m hm
      omega
    · intro n hn
      rw [createNode_nodes] at hn
      rcases List.mem_append.1 hn with h | h
      · have := hbound n h
        show n.id < db.nextNodeId + 1
        omega
      · simp only [createNode_snd, List.mem_cons, List.not_mem_nil, or_false] at h
        rw [h]
        exact Nat.lt_succ_self _
    · intro n hn m hm huid hlabel
      rw [createNode_nodes] at hn hm
      rcases List.mem_append.1 hn with h1 | h1 <;> rcases List.mem_append.1 hm with h2 | h2
      · exact huniq n h1 m h2 huid hlabel
      · simp only [createNode_snd, List.mem_cons, List.not_mem_nil, or_false] at h2
        exact absurd ⟨by rw [huid, h2], by rw [hlabel, h2]⟩ (habsent n h1)
      · simp only [createNode_snd, List.mem_cons, List.not_mem_nil, or_false] at h1
        exact absurd ⟨by rw [← huid, h1], by rw [← hlabel, h1]⟩ (habsent m h2)
      · simp only [createNode_snd, List.mem_cons, List.not_mem_nil, or_false] at h1 h2
        rw [h1, h2]

/-! ## Upsert-loop lemmas -/

theorem upsertAll_nil (uid : String) (db : DB) : upsertAll uid [] db = db := rfl

theorem upsertAll_cons (uid : String) (e : TypedEntity) (rest : List TypedEntity) (db : DB) :
    upsertAll uid (e :: rest) db = upsertAll uid rest (upsertEntity uid e db) := rfl

@[simp] theorem upsertAll_docs (uid : String) (ents : List TypedEntity) :
    ∀ db : DB, (upsertAll uid ents db).docs = db.docs := by
  induction ents with
  | nil => intro db; rfl
  | cons e rest ih =>
    intro db
    rw [upsertAll_cons, ih, upsertEntity_docs]

theorem nodesWF_upsertAll (uid : String) (ents : List TypedEntity) :
    ∀ {db : DB}, db.nodesWF → (upsertAll uid ents db).nodesWF := by
  induction ents with
  | nil => intro db h; exact h
  | cons e rest ih =>
    intro db h
    rw [upsertAll_cons]
    exact ih (nodesWF_upsertEntity uid e h)

theorem findNode_upsertAll_isSome_mono (uid : String) (ents : List TypedEntity) :
    ∀ (db : DB) (uid' l : String), (db.findNode uid' l).isSome →
      ((upsertAll uid ents db).findNode uid' l).isSome := by
  induction ents with
  | nil => intro db _ _ h; exact h
  | cons e rest ih =>
    intro db uid' l h
    rw [upsertAll_cons]
    exact ih _ _ _ (findNode_upsertEntity_isSome_mono uid e db uid' l h)

theorem findNode_upsertAll_present (uid : String) (ents : List TypedEntity) :
    ∀ db : DB, ∀ e ∈ ents, ((upsertAll uid ents db).findNode uid e.name).isSome := by
  induction ents with
  | nil => intro db e he; exact absurd he (by simp)
  | cons e₀ rest ih =>
    intro db e he
    rw [upsertAll_cons]
    rcases List.mem_cons.1 he with rfl | hmem
    · exact findNode_upsertAll_isSome_mono uid rest _ _ _
        (findNode_upsertEntity_self uid e db)
    · exact ih _ e hmem

theorem findNode_upsertAll_other (uid : String) (ents : List TypedEntity) :
    ∀ {db : DB}, db.nodesWF → ∀ uid' l : String,
      (uid' ≠ uid ∨ l ∉ ents.map (·.name)) →
      (upsertAll uid ents db).findNode uid' l = db.findNode uid' l := by
  induction ents with
  | nil => intro db _ _ _ _; rfl
  | cons e rest ih =>
    intro db hwf uid' l h
    rw [upsertAll_cons]
    have hstep : (uid' ≠ uid ∨ l ≠ e.name) := by
      rcases h with h | h
      · exact Or.inl h
      · exact Or.inr (fun hl => h (by rw [hl]; simp))
    have hrest : (uid' ≠ uid ∨ l ∉ rest.map (·.name)) := by
      rcases h with h | h
      · exact Or.inl h
      · exact Or.inr (fun hl => h (by simp [List.mem_cons]; right; simpa using hl))
    rw [ih (nodesWF_upsertEntity uid e hwf) uid' l hrest]
    exact findNode_upsertEntity_other uid e hwf.1 uid' l hstep

/-- The found branch rewrites the node to its strengthened version. -/
theorem findNode_upsertEntity_tracked {db : DB} {uid : String} {e : TypedEntity}
    {ex : KnowledgeNode} (h : db.findNode uid e.name = some ex) :
    (upsertEntity uid e db).findNode uid e.name =
      some (applyPatch
        (.strengthType (ex.strength + 1 / 2)
          (if ex.type == "entity" && e.type.toStr != "entity"
           then some e.type.toStr else none)) ex) := by
  rw [upsertEntity_found h, findNode_updateNode, h]
  simp

/-- Tracking a pre-existing node through the upsert loop: identity fields
and connections are untouched, and strength grows by `0.5` per occurrence
of the label among the entity names. -/
theorem findNode_upsertAll_tracked (uid : String) (ents : List TypedEntity) :
    ∀ {db : DB}, db.nodesWF → ∀ {l : String} {n : KnowledgeNode},
      db.findNode uid l = some n →
      ∃ n', (upsertAll uid ents db).findNode uid l = some n' ∧
        n'.id = n.id ∧ n'.userId = n.userId ∧ n'.label = n.label ∧
        n'.connections = n.connections ∧
        n'.strength = n.strength + ((ents.map (·.name)).count l : ℚ) * (1 / 2) := by
  induction ents with
  | nil =>
    intro db _ l n h
    exact ⟨n, h, rfl, rfl, rfl, rfl, by simp⟩
  | cons e rest ih =>
    intro db hwf l n h
    rw [upsertAll_cons]
    by_cases he : e.name = l
    · have h' : db.findNode uid e.name = some n := by rw [he]; exact h
      have hstep := findNode_upsertEntity_tracked h'
      rw [he] at hstep
      obtain ⟨n', hfind, hid, huid, hlabel, hconns, hstr⟩ :=
        ih (nodesWF_upsertEntity uid e hwf) hstep
      refine ⟨n', hfind, by simpa using hid, by simpa using huid,
        by simpa using hlabel, by simpa using hconns, ?_⟩
      rw [hstr]
      have hcount : ((e :: rest).map (·.name)).count l =
          (rest.map (·.name)).count l + 1 := by
        simp [List.count_cons, he]
      rw [hcount]
      show (applyPatch _ n).strength + _ = _
      simp only [applyPatch]
      push_cast
      ring
    · have hstep : (upsertEntity uid e db).findNode uid l = some n :=
        (findNode_upsertEntity_other uid e hwf.1 uid l
          (Or.inr (fun hl => he hl.symm))).trans h
      obtain ⟨n', hfind, hid, huid, hlabel, hconns, hstr⟩ :=
        ih (nodesWF_upsertEntity uid e hwf) hstep
      refine ⟨n', hfind, hid, huid, hlabel, hconns, ?_⟩
      rw [hstr]
      have hcount : ((e :: rest).map (·.name)).count l =
          (rest.map (·.name)).count l := by
        simp [List.count_cons, he]
      rw [hcount]

/-- A label among the entity names that had no node before the loop has one
afterwards, with an empty connection set. -/
theorem findNode_upsertAll_created (uid : String) (ents : List TypedEntity) :
    ∀ {db : DB}, db.nodesWF → ∀ {l : String},
      db.findNode uid l = none → l ∈ ents.map (·.name) →
      ∃ n', (upsertAll uid ents db).findNode uid l = some n' ∧
        n'.userId = uid ∧ n'.label = l ∧ n'.connections = [] := by
  induction ents with
  | nil => intro db _ l _ hmem; exact absurd hmem (by simp)
  | cons e rest ih =>
    intro db hwf l habs hmem
    rw [upsertAll_cons]
    by_cases he : e.name = l
    · have habs' : db.findNode uid e.name = none := by rw [he]; exact habs
      have hcreated : (upsertEntity uid e db).findNode uid l =
          some (db.createNode uid e.name e.type.toStr "Extracted from document" 1 []).2 := by
        rw [upsertEntity_notFound habs', ← he]
        exact findNode_createNode_self db _ _ _ _ _ _ habs'
      obtain ⟨n', hfind, hid, huid, hlabel, hconns, -⟩ :=
        findNode_upsertAll_tracked uid rest (nodesWF_upsertEntity uid e hwf) hcreated
      rw [createNode_snd] at huid hlabel hconns
      exact ⟨n', hfind, by simpa using huid, by rw [hlabel]; simpa using he,
        by simpa using hconns⟩
    · have hstep : (upsertEntity uid e db).findNode uid l = none :=
        (findNode_upsertEntity_other uid e hwf.1 uid l
          (Or.inr (fun hl => he hl.symm))).trans habs
      have hmem' : l ∈ rest.map (·.name) := by
        rcases (by simpa using hmem : l = e.name ∨ ∃ a ∈ rest, a.name = l) with h | ⟨a, ha, hal⟩
        · exact absurd h.symm he
        · exact List.mem_map.2 ⟨a, ha, hal⟩
      exact ih (nodesWF_upsertEntity uid e hwf) hstep hmem'

/-- When every entity already has a node, the loop creates nothing: the id
sequence of the store is unchanged. -/
theorem upsertAll_map_id_of_present (uid : String) (ents : List TypedEntity) :
    ∀ {db : DB}, db.nodesWF →
      (∀ e ∈ ents, (db.findNode uid e.name).isSome) →
      (upsertAll uid ents db).nodes.map (·.id) = db.nodes.map (·.id) := by
  induction ents with
  | nil => intro db _ _; rfl
  | cons e rest ih =>
    intro db hwf hpres
    rw [upsertAll_cons]
    obtain ⟨ex, hex⟩ : ∃ ex, db.findNode uid e.name = some ex := by
      have hp := hpres e (by simp)
      cases hx : db.findNode uid e.name with
      | none => rw [hx] at hp; exact absurd hp (by simp)
      | some ex => exact ⟨ex, rfl⟩
    have hrest : ∀ e' ∈ rest, ((upsertEntity uid e db).findNode uid e'.name).isSome := by
      intro e' he'
      exact findNode_upsertEntity_isSome_mono uid e db uid e'.name
        (hpres e' (List.mem_cons_of_mem _ he'))
    rw [ih (nodesWF_upsertEntity uid e hwf) hrest]
    rw [upsertEntity_found hex, updateNode_map_id]

/-! ## Deduplication lemmas (`Array.from(new Set(...))`) -/

theorem mem_jsDedup_foldl : ∀ (l acc : List Nat) (y : Nat),
    (y ∈ l.foldl (fun acc x => if acc.contains x then acc else acc ++ [x]) acc) ↔
      y ∈ acc ∨ y ∈ l := by
  intro l
  induction l with
  | nil => intro acc y; simp
  | cons x xs ih =>
    intro acc y
    simp only [List.foldl_cons]
    by_cases h : acc.contains x
    · rw [if_pos h]
      rw [ih]
      constructor
      · rintro (hy | hy)
        · exact Or.inl hy
        · exact Or.inr (List.mem_cons_of_mem _ hy)
      · rintro (hy | hy)
        · exact Or.inl hy
        · rcases List.mem_cons.1 hy with rfl | hy
          · exact Or.inl (by simpa using h)
          · exact Or.inr hy
    · rw [if_neg h]
      rw [ih]
      simp only [List.mem_append, List.mem_singleton, List.mem_cons]
      tauto

theorem nodup_jsDedup_foldl : ∀ (l acc : List Nat), acc.Nodup →
    (l.foldl (fun acc x => if acc.contains x then acc else acc ++ [x]) acc).Nodup := by
  intro l
  induction l with
  | nil => intro acc h; exact h
  | cons x xs ih =>
    intro acc h
    simp only [List.foldl_cons]
    by_cases hx : acc.contains x
    · rw [if_pos hx]; exact ih acc h
    · rw [if_neg hx]
      refine ih _ ?_
      rw [List.nodup_append]
      refine ⟨h, by simp, ?_⟩
      intro a ha hax
      simp only [List.mem_singleton] at hax
      exact hx (by rw [← hax]; simpa using ha)

theorem jsDedup_foldl_absorb : ∀ (l acc : List Nat), (∀ x ∈ l, x ∈ acc) →
    l.foldl (fun acc x => if acc.contains x then acc else acc ++ [x]) acc = acc := by
  intro l
  induction l with
  | nil => intro acc _; rfl
  | cons x xs ih =>
    intro acc h
    simp only [List.foldl_cons]
    rw [if_pos (by simpa using h x (by simp))]
    exact ih acc (fun y hy => h y (List.mem_cons_of_mem _ hy))

theorem jsDedup_foldl_disjoint : ∀ (l acc : List Nat), (∀ x ∈ l, x ∉ acc) → l.Nodup →
    l.foldl (fun acc x => if acc.contains x then acc else acc ++ [x]) acc = acc ++ l := by
  intro l
  induction l with
  | nil => intro acc _ _; simp
  | cons x xs ih =>
    intro acc hdisj hnodup
    simp only [List.foldl_cons]
    rw [if_neg (by simpa using hdisj x (by simp))]
    rw [ih (acc ++ [x]) ?_ (List.Nodup.of_cons hnodup)]
    · simp
    · intro y hy
      simp only [List.mem_append, List.mem_singleton]
      rintro (hyacc | rfl)
      · exact hdisj y (List.mem_cons_of_mem _ hy) hyacc
      · exact (List.nodup_cons.1 hnodup).1 hy

theorem mem_jsDedup (l : List Nat) (y : Nat) : y ∈ jsDedup l ↔ y ∈ l := by
  unfold jsDedup
  rw [mem_jsDedup_foldl]
  simp

theorem nodup_jsDedup (l : List Nat) : (jsDedup l).Nodup :=
  nodup_jsDedup_foldl l [] (by simp)

theorem jsDedup_of_nodup {l : List Nat} (h : l.Nodup) : jsDedup l = l := by
  unfold jsDedup
  rw [jsDedup_foldl_disjoint l [] (by simp) h]
  simp

theorem jsDedup_append_absorb {c l : List Nat} (hc : c.Nodup) (h : ∀ x ∈ l, x ∈ c) :
    jsDedup (c ++ l) = c := by
  unfold jsDedup
  rw [List.foldl_append]
  have h1 : c.foldl (fun acc x => if acc.contains x then acc else acc ++ [x]) [] = c := by
    have := jsDedup_of_nodup hc
    unfold jsDedup at this
    exact this
  rw [h1]
  exact jsDedup_foldl_absorb l c h

/-! ## Connection-phase lemmas -/

/-- A general update preserves store well-formedness. -/
theorem nodesWF_updateNode (db : DB) (i : Nat) (p : NodePatch) (hwf : db.nodesWF) :
    (db.updateNode i p).nodesWF := by
  obtain ⟨hnodup, hbound, huniq⟩ := hwf
  refine ⟨by rw [updateNode_map_id]; exact hnodup, ?_, ?_⟩
  · intro n hn
    rw [updateNode_nodes] at hn
    obtain ⟨m, hm, rfl⟩ := List.mem_map.1 hn
    by_cases h : (m.id == i) = true
    · rw [if_pos h]
      simpa using hbound m hm
    · rw [if_neg h]
      exact hbound m hm
  · intro n hn m hm huid hlabel
    rw [updateNode_nodes] at hn hm
    obtain ⟨n₀, hn₀, rfl⟩ := List.mem_map.1 hn
    obtain ⟨m₀, hm₀, rfl⟩ := List.mem_map.1 hm
    have huid' : n₀.userId = m₀.userId := by
      by_cases h1 : (n₀.id == i) = true <;> by_cases h2 : (m₀.id == i) = true <;>
        simpa [h1, h2] using huid
    have hlabel' : n₀.label = m₀.label := by
      by_cases h1 : (n₀.id == i) = true <;> by_cases h2 : (m₀.id == i) = true <;>
        simpa [h1, h2] using hlabel
    rw [huniq n₀ hn₀ m₀ hm₀ huid' hlabel']

theorem connectPhase_eq_foldl (snap : List KnowledgeNode) (d : Nat) (db : DB) :
    connectPhase snap d db = snap.foldl (connectStep snap d) db := rfl

theorem connectStep_eq_updateNode (snap : List KnowledgeNode) (d : Nat)
    (st : DB) (node : KnowledgeNode) :
    connectStep snap d st node = st.updateNode node.id
      (.conns (jsDedup (node.connections ++
        (((snap.filter (fun n => n.id != node.id)).map (·.id)) ++ [d])))) := rfl

theorem foldl_connectStep_docs (snap : List KnowledgeNode) (d : Nat) :
    ∀ (l : List KnowledgeNode) (db : DB),
      (l.foldl (connectStep snap d) db).docs = db.docs := by
  intro l
  induction l with
  | nil => intro db; rfl
  | cons x xs ih =>
    intro db
    rw [List.foldl_cons, ih, connectStep_eq_updateNode, updateNode_docs]

theorem foldl_connectStep_map_id (snap : List KnowledgeNode) (d : Nat) :
    ∀ (l : List KnowledgeNode) (db : DB),
      (l.foldl (connectStep snap d) db).nodes.map (·.id) = db.nodes.map (·.id) := by
  intro l
  induction l with
  | nil => intro db; rfl
  | cons x xs ih =>
    intro db
    rw [List.foldl_cons, ih, connectStep_eq_updateNode, updateNode_map_id]

theorem nodesWF_foldl_connectStep (snap : List KnowledgeNode) (d : Nat) :
    ∀ (l : List KnowledgeNode) {db : DB}, db.nodesWF →
      (l.foldl (connectStep snap d) db).nodesWF := by
  intro l
  induction l with
  | nil => intro db h; exact h
  | cons x xs ih =>
    intro db h
    rw [List.foldl_cons, connectStep_eq_updateNode]
    exact ih (nodesWF_updateNode db _ _ h)

/-- Tracking a node by key through the connection loop: only its
connections may change. -/
theorem findNode_foldl_connectStep (snap : List KnowledgeNode) (d : Nat) :
    ∀ (l : List KnowledgeNode) (db : DB) (uid lab : String),
      (db.findNode uid lab = none →
        (l.foldl (connectStep snap d) db).findNode uid lab = none) ∧
      (∀ n, db.findNode uid lab = some n →
        ∃ n', (l.foldl (connectStep snap d) db).findNode uid lab = some n' ∧
          n'.id = n.id ∧ n'.userId = n.userId ∧ n'.label = n.label ∧
          n'.strength = n.strength ∧ n'.type = n.type) := by
  intro l
  induction l with
  | nil =>
    intro db uid lab
    exact ⟨fun h => h, fun n h => ⟨n, h, rfl, rfl, rfl, rfl, rfl⟩⟩
  | cons x xs ih =>
    intro db uid lab
    constructor
    · intro h
      rw [List.foldl_cons]
      refine (ih _ uid lab).1 ?_
      rw [connectStep_eq_updateNode, findNode_updateNode, h]
      rfl
    · intro n h
      rw [List.foldl_cons]
      set n₁ := if (n.id == x.id) = true
        then applyPatch (.conns (jsDedup (x.connections ++
          (((snap.filter (fun m => m.id != x.id)).map (·.id)) ++ [d])))) n
        else n with hn₁
      have hstep : (connectStep snap d db x).findNode uid lab = some n₁ := by
        rw [connectStep_eq_updateNode, findNode_updateNode, h]
        rfl
      obtain ⟨n', hfind, hid, huid, hlabel, hstr, hty⟩ := (ih _ uid lab).2 n₁ hstep
      refine ⟨n', hfind, ?_, ?_, ?_, ?_, ?_⟩ <;>
        · rw [hn₁] at hid huid hlabel hstr hty
          by_cases hx : (n.id == x.id) = true <;>
            simp_all [hid, huid, hlabel, hstr, hty]

/-- A node whose id is outside the processed list is untouched by the
connection loop. -/
theorem foldl_connectStep_nodeById_not_mem (snap : List KnowledgeNode) (d : Nat) :
    ∀ (l : List KnowledgeNode) (db : DB) (j : Nat), j ∉ l.map (·.id) →
      (l.foldl (connectStep snap d) db).nodeById j = db.nodeById j := by
  intro l
  induction l with
  | nil => intro db j _; rfl
  | cons x xs ih =>
    intro db j hj
    rw [List.foldl_cons]
    rw [List.map_cons] at hj
    have hjx : j ≠ x.id := fun hcontra => hj (by rw [hcontra]; simp)
    have hjxs : j ∉ xs.map (·.id) := fun hcontra => hj (List.mem_cons_of_mem _ hcontra)
    rw [ih _ j hjxs]
    rw [connectStep_eq_updateNode, nodeById_updateNode]
    cases hx : db.nodeById j with
    | none => rfl
    | some n =>
      have hid : n.id = j := by
        have := List.find?_some hx
        simpa using this
      have hne : (n.id == x.id) = false := by
        simp [hid, hjx]
      simp only [Option.map_some']
      rw [if_neg (by rw [hne]; simp)]

/-- The row of each processed snapshot entry ends with exactly the deduped
union computed from that entry. -/
theorem foldl_connectStep_nodeById_mem (snap : List KnowledgeNode) (d : Nat) :
    ∀ (l : List KnowledgeNode) (db : DB), (l.map (·.id)).Nodup →
      ∀ sn ∈ l, (l.foldl (connectStep snap d) db).nodeById sn.id =
        (db.nodeById sn.id).map (fun n => applyPatch
          (.conns (jsDedup (sn.connections ++
            (((snap.filter (fun m => m.id != sn.id)).map (·.id)) ++ [d])))) n) := by
  intro l
  induction l with
  | nil => intro db _ sn hsn; exact absurd hsn (by simp)
  | cons x xs ih =>
    intro db hnodup sn hsn
    rw [List.foldl_cons]
    rw [List.map_cons] at hnodup
    have hhead : x.id ∉ xs.map (·.id) := (List.nodup_cons.1 hnodup).1
    have htail : (xs.map (·.id)).Nodup := (List.nodup_cons.1 hnodup).2
    rcases List.mem_cons.1 hsn with rfl | hmem
    · rw [foldl_connectStep_nodeById_not_mem snap d xs _ sn.id hhead]
      rw [connectStep_eq_updateNode, nodeById_updateNode]
      cases hx : db.nodeById sn.id with
      | none => rfl
      | some n =>
        have hid : n.id = sn.id := by
          have := List.find?_some hx
          simpa using this
        simp only [Option.map_some']
        rw [if_pos (by simp [hid])]
    · have hsnne : sn.id ≠ x.id := by
        intro hcontra
        exact hhead (by rw [← hcontra]; exact List.mem_map.2 ⟨sn, hmem, rfl⟩)
      rw [ih _ htail sn hmem]
      rw [connectStep_eq_updateNode, nodeById_updateNode]
      cases hx : db.nodeById sn.id with
      | none => rfl
      | some n =>
        have hid : n.id = sn.id := by
          have := List.find?_some hx
          simpa using this
        have hne : (n.id == x.id) = false := by
          simp [hid, hsnne]
        simp only [Option.map_some']
        rw [if_neg (by rw [hne]; simp)]

/-! ## C2: per-entity find-or-create -/

/-- C2: for every typed entity processed by the graph merge, when no node
exists for `(ownerId, label = name)` a node is created with the entity's
type, strength `1.0` and an empty connection set; when a node exists its
strength is incremented by exactly `0.5`, and its stored type is upgraded
to the observed type only when the stored type is the generic `entity` and
the observed type differs from `entity` (i.e. is `concept` or `idea`) — a
specific stored type is never replaced. -/
theorem upsertEntity_node_spec (db : DB) (uid : String) (e : TypedEntity) :
    ((e.type = EType.concept ∨ e.type = EType.idea) ↔ e.type.toStr ≠ "entity") ∧
    (db.findNode uid e.name = none →
      ∃ n, (upsertEntity uid e db).nodes = db.nodes ++ [n] ∧
        (upsertEntity uid e db).findNode uid e.name = some n ∧
        n.userId = uid ∧ n.label = e.name ∧ n.type = e.type.toStr ∧
        n.strength = 1 ∧ n.connections = []) ∧
    (∀ ex, db.findNode uid e.name = some ex →
      ∃ n, (upsertEntity uid e db).findNode uid e.name = some n ∧
        n.id = ex.id ∧ n.connections = ex.connections ∧
        n.strength = ex.strength + 1 / 2 ∧
        n.type = (if ex.type = "entity" ∧ e.type ≠ EType.entity
                  then e.type.toStr else ex.type) ∧
        (ex.type ≠ "entity" → n.type = ex.type)) := by
  refine ⟨?_, ?_, ?_⟩
  · cases e.type <;> simp [EType.toStr]
  · intro h
    refine ⟨(db.createNode uid e.name e.type.toStr "Extracted from document" 1 []).2, ?_, ?_, ?_⟩
    · rw [upsertEntity_notFound h, createNode_nodes]
    · rw [upsertEntity_notFound h]
      exact findNode_createNode_self db _ _ _ _ _ _ h
    · rw [createNode_snd]
      exact ⟨rfl, rfl, rfl, rfl, rfl⟩
  · intro ex h
    refine ⟨_, findNode_upsertEntity_tracked h, rfl, rfl, rfl, ?_, ?_⟩
    · show (Option.getD _ ex.type) = _
      by_cases hc : ex.type = "entity" ∧ e.type ≠ EType.entity
      · rw [if_pos hc]
        have hb : (ex.type == "entity" && e.type.toStr != "entity") = true := by
          have : e.type.toStr ≠ "entity" := by
            cases he : e.type <;> simp_all [EType.toStr]
          simp [hc.1, this]
        rw [hb]
        rfl
      · rw [if_neg hc]
        have hb : (ex.type == "entity" && e.type.toStr != "entity") = false := by
          push_neg at hc
          by_cases h1 : ex.type = "entity"
          · have h2 : e.type = EType.entity := hc h1
            simp [h1, h2, EType.toStr]
          · simp [h1]
        rw [hb]
        rfl
    · intro hne
      show (Option.getD _ ex.type) = _
      have hb : (ex.type == "entity" && e.type.toStr != "entity") = false := by
        simp [hne]
      rw [hb]
      rfl

/-- Witness for C2: creation on an empty graph (type, strength `1.0`, no
connections) and accumulation on an existing generic node. -/
theorem upsertEntity_node_spec_witness :
    (∃ n, (upsertEntity "u" ⟨"B", .concept⟩ cexDB).nodes = cexDB.nodes ++ [n] ∧
      (upsertEntity "u" ⟨"B", .concept⟩ cexDB).findNode "u" "B" = some n ∧
      n.userId = "u" ∧ n.label = "B" ∧ n.type = "concept" ∧
      n.strength = 1 ∧ n.connections = []) ∧
    (∃ n, (upsertEntity "u" ⟨"A", .idea⟩ cexDBNodeA).findNode "u" "A" = some n ∧
      n.id = 7 ∧ n.connections = [3] ∧ n.strength = 1 + 1 / 2 ∧ n.type = "idea") := by
  constructor
  · have h := (upsertEntity_node_spec cexDB "u" ⟨"B", .concept⟩).2.1 (by decide)
    simpa using h
  · obtain ⟨n, hfind, hid, hconns, hstr, hty, -⟩ :=
      (upsertEntity_node_spec cexDBNodeA "u" ⟨"A", .idea⟩).2.2
        ⟨7, "u", "A", "entity", "Extracted from document", 1, [3]⟩ (by decide)
    refine ⟨n, hfind, hid, hconns, hstr, ?_⟩
    rw [hty]
    rfl

/-! ## Merge lemmas -/

/-- A stored row is found under its own key. -/
theorem findNode_eq_of_mem {db : DB} (hwf : db.nodesWF) {n : KnowledgeNode}
    (hn : n ∈ db.nodes) : db.findNode n.userId n.label = some n := by
  cases hx : db.findNode n.userId n.label with
  | none =>
    have := List.find?_eq_none.1 hx n hn
    simp at this
  | some m =>
    obtain ⟨hmmem, hmuid, hmlabel⟩ := findNode_some_props hx
    rw [hwf.2.2 m hmmem n hn (by rw [hmuid]) (by rw [hmlabel])]

/-- A stored row is found under its own id. -/
theorem nodeById_eq_of_mem {db : DB} (hnodup : (db.nodes.map (·.id)).Nodup)
    {n : KnowledgeNode} (hn : n ∈ db.nodes) : db.nodeById n.id = some n := by
  cases hx : db.nodeById n.id with
  | none =>
    have := List.find?_eq_none.1 hx n hn
    simp at this
  | some m =>
    have hmmem := List.mem_of_find?_eq_some hx
    have hmid : m.id = n.id := by simpa using List.find?_some hx
    rw [eq_of_mem_of_id_eq hnodup hmmem hn hmid]

theorem nodeById_createNode_of_isSome (db : DB) (uid l ty d : String) (s : ℚ)
    (c : List Nat) (j : Nat) (h : (db.nodeById j).isSome) :
    (db.createNode uid l ty d s c).1.nodeById j = db.nodeById j := by
  unfold DB.nodeById at h ⊢
  rw [createNode_nodes, find?_append_or]
  cases hx : db.nodes.find? (fun n => n.id == j) with
  | none => rw [hx] at h; exact absurd h (by simp)
  | some n => rfl

theorem findNode_createNode_isSome_mono (db : DB) (uid l ty d : String) (s : ℚ)
    (c : List Nat) (uid' l' : String) (h : (db.findNode uid' l').isSome) :
    ((db.createNode uid l ty d s c).1.findNode uid' l').isSome := by
  unfold DB.findNode at h ⊢
  rw [createNode_nodes, find?_append_or]
  cases hx : db.nodes.find? (fun n => n.userId == uid' && n.label == l') with
  | none => rw [hx] at h; exact absurd h (by simp)
  | some n => rfl

/-- Creating a row under an absent key preserves well-formedness. -/
theorem nodesWF_createNode {db : DB} (uid l ty d : String) (s : ℚ) (c : List Nat)
    (habs : db.findNode uid l = none) (hwf : db.nodesWF) :
    (db.createNode uid l ty d s c).1.nodesWF := by
  obtain ⟨hnodup, hbound, huniq⟩ := hwf
  have habsent : ∀ x ∈ db.nodes, ¬(x.userId = uid ∧ x.label = l) := by
    intro x hx hcontra
    have := List.find?_eq_none.1 habs x hx
    simp only [Bool.and_eq_true, beq_iff_eq] at this
    exact this ⟨hcontra.1, hcontra.2⟩
  refine ⟨?_, ?_, ?_⟩
  · rw [createNode_nodes, List.map_append]
    rw [List.nodup_append]
    refine ⟨hnodup, by simp, ?_⟩
    intro i hi hj
    simp only [createNode_snd, List.map_cons, List.map_nil, List.mem_cons,
      List.not_mem_nil, or_false] at hj
    obtain ⟨m, hm, rfl⟩ := List.mem_map.1 hi
    have := hbound m hm
    omega
  · intro n hn
    rw [createNode_nodes] at hn
    rcases List.mem_append.1 hn with h | h
    · have := hbound n h
      show n.id < db.nextNodeId + 1
      omega
    · simp only [createNode_snd, List.mem_cons, List.not_mem_nil, or_false] at h
      rw [h]
      exact Nat.lt_succ_self _
  · intro n hn m hm huid hlabel
    rw [createNode_nodes] at hn hm
    rcases List.mem_append.1 hn with h1 | h1 <;> rcases List.mem_append.1 hm with h2 | h2
    · exact huniq n h1 m h2 huid hlabel
    · simp only [createNode_snd, List.mem_cons, List.not_mem_nil, or_false] at h2
      exact absurd ⟨by rw [huid, h2], by rw [hlabel, h2]⟩ (habsent n h1)
    · simp only [createNode_snd, List.mem_cons, List.not_mem_nil, or_false] at h1
      exact absurd ⟨by rw [← huid, h1], by rw [← hlabel, h1]⟩ (habsent m h2)
    · simp only [createNode_snd, List.mem_cons, List.not_mem_nil, or_false] at h1 h2
      rw [h1, h2]

theorem mem_entitySnapshot {uid : String} {ents : List TypedEntity} {db : DB}
    {n : KnowledgeNode} :
    n ∈ entitySnapshot uid ents db ↔
      n ∈ db.nodes ∧ n.userId = uid ∧ n.label ∈ ents.map (·.name) := by
  unfold entitySnapshot
  rw [List.mem_filter]
  simp [and_assoc]

theorem entitySnapshot_map_id_nodup {uid : String} {ents : List TypedEntity} {db : DB}
    (hnodup : (db.nodes.map (·.id)).Nodup) :
    ((entitySnapshot uid ents db).map (·.id)).Nodup := by
  have hsub : (entitySnapshot uid ents db).Sublist db.nodes := List.filter_sublist _
  exact hnodup.sublist (hsub.map _)

theorem entitySnapshot_mem_of_findNode {uid : String} {ents : List TypedEntity} {db : DB}
    {l : String} {n : KnowledgeNode} (hl : l ∈ ents.map (·.name))
    (h : db.findNode uid l = some n) : n ∈ entitySnapshot uid ents db := by
  obtain ⟨hm, hu, hlab⟩ := findNode_some_props h
  exact mem_entitySnapshot.2 ⟨hm, hu, by rw [hlab]; exact hl⟩

theorem docNodeLabel_congr {db1 db2 : DB} (h : db1.docs = db2.docs) (docId : String) :
    docNodeLabel db1 docId = docNodeLabel db2 docId := by
  unfold docNodeLabel
  rw [h]

theorem mergeDocument_eq_found {uid docId : String} {ents : List TypedEntity} {db : DB}
    {dn : KnowledgeNode}
    (h : (upsertAll uid ents db).findNode uid
      (docNodeLabel (upsertAll uid ents db) docId) = some dn) :
    mergeDocument uid docId ents db =
      connectPhase (entitySnapshot uid ents (upsertAll uid ents db)) dn.id
        (upsertAll uid ents db) := by
  simp only [mergeDocument]
  rw [h]

theorem mergeDocument_eq_notFound {uid docId : String} {ents : List TypedEntity} {db : DB}
    (h : (upsertAll uid ents db).findNode uid
      (docNodeLabel (upsertAll uid ents db) docId) = none) :
    mergeDocument uid docId ents db =
      connectPhase (entitySnapshot uid ents (upsertAll uid ents db))
        ((upsertAll uid ents db).createNode uid
          (docNodeLabel (upsertAll uid ents db) docId) "document" "Source document" 2
          ((entitySnapshot uid ents (upsertAll uid ents db)).map (·.id))).2.id
        ((upsertAll uid ents db).createNode uid
          (docNodeLabel (upsertAll uid ents db) docId) "document" "Source document" 2
          ((entitySnapshot uid ents (upsertAll uid ents db)).map (·.id))).1 := by
  simp only [mergeDocument]
  rw [h]

theorem mergeDocument_docs (uid docId : String) (ents : List TypedEntity) (db : DB) :
    (mergeDocument uid docId ents db).docs = db.docs := by
  cases h : (upsertAll uid ents db).findNode uid
      (docNodeLabel (upsertAll uid ents db) docId) with
  | some dn =>
    rw [mergeDocument_eq_found h, connectPhase_eq_foldl, foldl_connectStep_docs,
      upsertAll_docs]
  | none =>
    rw [mergeDocument_eq_notFound h, connectPhase_eq_foldl, foldl_connectStep_docs,
      createNode_docs, upsertAll_docs]

theorem nodesWF_mergeDocument (uid docId : String) (ents : List TypedEntity) {db : DB}
    (hwf : db.nodesWF) : (mergeDocument uid docId ents db).nodesWF := by
  have hwf1 := nodesWF_upsertAll uid ents hwf
  cases h : (upsertAll uid ents db).findNode uid
      (docNodeLabel (upsertAll uid ents db) docId) with
  | some dn =>
    rw [mergeDocument_eq_found h, connectPhase_eq_foldl]
    exact nodesWF_foldl_connectStep _ _ _ hwf1
  | none =>
    rw [mergeDocument_eq_notFound h, connectPhase_eq_foldl]
    exact nodesWF_foldl_connectStep _ _ _ (nodesWF_createNode _ _ _ _ _ _ h hwf1)

/-- Presence through the connection loop. -/
theorem findNode_connectPhase_isSome_mono (snap : List KnowledgeNode) (d : Nat)
    (db : DB) (uid l : String) (h : (db.findNode uid l).isSome) :
    ((connectPhase snap d db).findNode uid l).isSome := by
  rw [connectPhase_eq_foldl]
  cases hx : db.findNode uid l with
  | none => rw [hx] at h; exact absurd h (by simp)
  | some n =>
    obtain ⟨n', hfind, -⟩ := (findNode_foldl_connectStep snap d snap db uid l).2 n hx
    rw [hfind]
    rfl

/-- Every merged entity keeps a node in the result. -/
theorem findNode_mergeDocument_present (uid docId : String) (ents : List TypedEntity)
    (db : DB) : ∀ e ∈ ents, ((mergeDocument uid docId ents db).findNode uid e.name).isSome := by
  intro e he
  have h1 : ((upsertAll uid ents db).findNode uid e.name).isSome :=
    findNode_upsertAll_present uid ents db e he
  cases h : (upsertAll uid ents db).findNode uid
      (docNodeLabel (upsertAll uid ents db) docId) with
  | some dn =>
    rw [mergeDocument_eq_found h]
    exact findNode_connectPhase_isSome_mono _ _ _ _ _ h1
  | none =>
    rw [mergeDocument_eq_notFound h]
    exact findNode_connectPhase_isSome_mono _ _ _ _ _
      (findNode_createNode_isSome_mono _ _ _ _ _ _ _ _ _ h1)

/-- The merge always leaves a node under the document label. -/
theorem findNode_mergeDocument_docLabel (uid docId : String) (ents : List TypedEntity)
    (db : DB) : ((mergeDocument uid docId ents db).findNode uid
      (docNodeLabel db docId)).isSome := by
  have hdl : docNodeLabel (upsertAll uid ents db) docId = docNodeLabel db docId :=
    docNodeLabel_congr (upsertAll_docs uid ents db) docId
  cases h : (upsertAll uid ents db).findNode uid
      (docNodeLabel (upsertAll uid ents db) docId) with
  | some dn =>
    rw [mergeDocument_eq_found h]
    rw [hdl] at h
    exact findNode_connectPhase_isSome_mono _ _ _ _ _ (by rw [h]; rfl)
  | none =>
    rw [mergeDocument_eq_notFound h]
    refine findNode_connectPhase_isSome_mono _ _ _ _ _ ?_
    rw [← hdl]
    rw [findNode_createNode_self _ _ _ _ _ _ _ h]
    rfl

theorem filterMap_congr_local {α β : Type} (f g : α → Option β) :
    ∀ l : List α, (∀ a ∈ l, f a = g a) → l.filterMap f = l.filterMap g := by
  intro l
  induction l with
  | nil => intro _; rfl
  | cons a l ih =>
    intro h
    rw [List.filterMap_cons, List.filterMap_cons, h a (by simp),
      ih (fun x hx => h x (List.mem_cons_of_mem _ hx))]

/-- Stores answering id-equal lookups have the same entity-id sets. -/
theorem entityIds_congr {db1 db2 : DB} {uid : String} (ms : List String)
    (h : ∀ m ∈ ms, (db1.findNode uid m).map (·.id) = (db2.findNode uid m).map (·.id)) :
    entityIds db1 uid ms = entityIds db2 uid ms := by
  unfold entityIds
  rw [filterMap_congr_local _ _ ms h]

/-- Every entity name has a node after the upsert loop. -/
theorem names_present (uid : String) (ents : List TypedEntity) (db : DB) :
    ∀ m ∈ ents.map (·.name), ((upsertAll uid ents db).findNode uid m).isSome := by
  intro m hm
  obtain ⟨e, he, rfl⟩ := List.mem_map.1 hm
  exact findNode_upsertAll_present uid ents db e he

/-- The other-entity ids computed by the connection loop are exactly the
ids of the nodes of the other entity names. -/
theorem otherIds_toFinset {uid : String} {ents : List TypedEntity} {db1 : DB}
    (hwf1 : db1.nodesWF) {l : String} {n₁ : KnowledgeNode}
    (hfind : db1.findNode uid l = some n₁) :
    ((((entitySnapshot uid ents db1).filter (fun m => m.id != n₁.id)).map (·.id)).toFinset) =
      entityIds db1 uid ((ents.map (·.name)).filter (fun m => m != l)) := by
  ext x
  simp only [List.mem_toFinset, List.mem_map, List.mem_filter, entityIds,
    List.mem_filterMap, Option.map_eq_some', bne_iff_ne, ne_eq]
  constructor
  · rintro ⟨sn, ⟨hsnap, hne⟩, rfl⟩
    obtain ⟨hmem, huid, hlabmem⟩ := mem_entitySnapshot.1 hsnap
    have hfsn : db1.findNode uid sn.label = some sn := by
      have := findNode_eq_of_mem hwf1 hmem
      rwa [huid] at this
    have hlabne : sn.label ≠ l := by
      intro hcontra
      rw [hcontra, hfind] at hfsn
      injection hfsn with hsn
      rw [hsn] at hne
      exact hne rfl
    obtain ⟨e, he, hname⟩ := List.mem_map.1 hlabmem
    exact ⟨sn.label, ⟨⟨e, he, hname⟩, hlabne⟩, sn, hfsn, rfl⟩
  · rintro ⟨m, ⟨hmnames, hmne⟩, nm, hfm, rfl⟩
    obtain ⟨e, he, hname⟩ := hmnames
    have hsnap : nm ∈ entitySnapshot uid ents db1 :=
      entitySnapshot_mem_of_findNode (List.mem_map.2 ⟨e, he, hname⟩) hfm
    refine ⟨nm, ⟨hsnap, ?_⟩, rfl⟩
    intro hcontra
    have hn₁mem : n₁ ∈ db1.nodes := (findNode_some_props hfind).1
    have hnmmem : nm ∈ db1.nodes := (findNode_some_props hfm).1
    have : nm = n₁ := eq_of_mem_of_id_eq hwf1.1 hnmmem hn₁mem hcontra
    have hlabm : nm.label = m := (findNode_some_props hfm).2.2
    have hlabl : n₁.label = l := (findNode_some_props hfind).2.2
    rw [this, hlabl] at hlabm
    exact hmne hlabm.symm

/-- Lookup ids are unchanged by the connection loop. -/
theorem findNode_connectPhase_map_id (snap : List KnowledgeNode) (d : Nat) (dbx : DB)
    (uid m : String) :
    ((connectPhase snap d dbx).findNode uid m).map (·.id) =
      (dbx.findNode uid m).map (·.id) := by
  rw [connectPhase_eq_foldl]
  cases hx : dbx.findNode uid m with
  | none => rw [(findNode_foldl_connectStep snap d snap dbx uid m).1 hx]
  | some n =>
    obtain ⟨n', hf, hid, -⟩ := (findNode_foldl_connectStep snap d snap dbx uid m).2 n hx
    rw [hf]
    simp [hid]

/-- After the connection loop, a snapshot row's node carries exactly the
deduped union the loop computed for it. -/
theorem connectPhase_entity_final {snap : List KnowledgeNode} {d : Nat} {dbx : DB}
    (hwfx : dbx.nodesWF) (hsnapnodup : (snap.map (·.id)).Nodup)
    {uid l : String} {n₁ : KnowledgeNode}
    (hmem : n₁ ∈ snap) (hfind : dbx.findNode uid l = some n₁) :
    ∃ n', (connectPhase snap d dbx).findNode uid l = some n' ∧ n'.id = n₁.id ∧
      n'.strength = n₁.strength ∧
      n'.connections = jsDedup (n₁.connections ++
        (((snap.filter (fun m => m.id != n₁.id)).map (·.id)) ++ [d])) := by
  have hn₁mem : n₁ ∈ dbx.nodes := (findNode_some_props hfind).1
  have hById : dbx.nodeById n₁.id = some n₁ := nodeById_eq_of_mem hwfx.1 hn₁mem
  obtain ⟨n', hfind', hid', huid', hlab', hstr', hty'⟩ :=
    (findNode_foldl_connectStep snap d snap dbx uid l).2 n₁ hfind
  have hfind'' : (connectPhase snap d dbx).findNode uid l = some n' := by
    rw [connectPhase_eq_foldl]
    exact hfind'
  have hWFres : (connectPhase snap d dbx).nodesWF := by
    rw [connectPhase_eq_foldl]
    exact nodesWF_foldl_connectStep _ _ _ hwfx
  have hByIdres : (connectPhase snap d dbx).nodeById n₁.id =
      some (applyPatch (.conns (jsDedup (n₁.connections ++
        (((snap.filter (fun m => m.id != n₁.id)).map (·.id)) ++ [d])))) n₁) := by
    rw [connectPhase_eq_foldl,
      foldl_connectStep_nodeById_mem snap d snap dbx hsnapnodup n₁ hmem, hById]
    rfl
  have hn'mem : n' ∈ (connectPhase snap d dbx).nodes := (findNode_some_props hfind'').1
  have hself : (connectPhase snap d dbx).nodeById n'.id = some n' :=
    nodeById_eq_of_mem hWFres.1 hn'mem
  rw [hid', hByIdres] at hself
  injection hself with hn'
  refine ⟨n', hfind'', hid', hstr', ?_⟩
  rw [← hn']
  rfl

/-- Single-run characterization of the merge: after `mergeDocument`, each
entity name has a node whose connection list is the first-occurrence
deduplication of its previously stored connections, followed by the other
entity-node ids, followed by the document node's id; pre-existing nodes
keep their id and gain `0.5` strength per mention. -/
theorem mergeDocument_conns_formula (uid docId : String) (ents : List TypedEntity)
    {db : DB} (hwf : db.nodesWF) :
    ∀ l ∈ ents.map (·.name),
      ∃ n dn others,
        (mergeDocument uid docId ents db).findNode uid l = some n ∧
        (mergeDocument uid docId ents db).findNode uid (docNodeLabel db docId) = some dn ∧
        n.connections = jsDedup (prevConns db uid l ++ (others ++ [dn.id])) ∧
        others.toFinset =
          entityIds (mergeDocument uid docId ents db) uid
            ((ents.map (·.name)).filter (fun m => m != l)) ∧
        (∀ n₀, db.findNode uid l = some n₀ → n.id = n₀.id ∧
          n.strength = n₀.strength + ((ents.map (·.name)).count l : ℚ) * (1 / 2)) := by
  intro l hl
  have hwf1 : (upsertAll uid ents db).nodesWF := nodesWF_upsertAll uid ents hwf
  have hdl : docNodeLabel (upsertAll uid ents db) docId = docNodeLabel db docId :=
    docNodeLabel_congr (upsertAll_docs uid ents db) docId
  obtain ⟨n₁, hfind1, hconns1, hidstr1⟩ :
      ∃ n₁, (upsertAll uid ents db).findNode uid l = some n₁ ∧
        n₁.connections = prevConns db uid l ∧
        (∀ n₀, db.findNode uid l = some n₀ → n₁.id = n₀.id ∧
          n₁.strength = n₀.strength + ((ents.map (·.name)).count l : ℚ) * (1 / 2)) := by
    cases hpre : db.findNode uid l with
    | some n₀ =>
      obtain ⟨n', hf, hid, huid, hlab, hcs, hstr⟩ :=
        findNode_upsertAll_tracked uid ents hwf hpre
      refine ⟨n', hf, ?_, ?_⟩
      · rw [hcs]
        unfold prevConns
        rw [hpre]
      · intro n₀' h₀
        injection h₀ with h₀
        subst h₀
        exact ⟨hid, hstr⟩
    | none =>
      obtain ⟨n', hf, huid, hlab, hcs⟩ :=
        findNode_upsertAll_created uid ents hwf hpre hl
      refine ⟨n', hf, ?_, ?_⟩
      · rw [hcs]
        unfold prevConns
        rw [hpre]
      · intro n₀' h₀
        exact absurd h₀ (by simp)
  have hmem1 : n₁ ∈ entitySnapshot uid ents (upsertAll uid ents db) :=
    entitySnapshot_mem_of_findNode hl hfind1
  have hsnapnodup : ((entitySnapshot uid ents (upsertAll uid ents db)).map (·.id)).Nodup :=
    entitySnapshot_map_id_nodup hwf1.1
  cases hdoc : (upsertAll uid ents db).findNode uid
      (docNodeLabel (upsertAll uid ents db) docId) with
  | some dn₁ =>
    rw [mergeDocument_eq_found hdoc]
    obtain ⟨n', hfind', hid', hstr', hconns'⟩ :=
      connectPhase_entity_final hwf1 hsnapnodup hmem1 hfind1
    have hdoc' : (upsertAll uid ents db).findNode uid (docNodeLabel db docId) = some dn₁ := by
      rw [← hdl]
      exact hdoc
    obtain ⟨dn', hdnfind, hdnid, -⟩ :=
      (findNode_foldl_connectStep (entitySnapshot uid ents (upsertAll uid ents db))
        dn₁.id (entitySnapshot uid ents (upsertAll uid ents db)) (upsertAll uid ents db)
        uid (docNodeLabel db docId)).2 dn₁ hdoc'
    refine ⟨n', dn',
      (((entitySnapshot uid ents (upsertAll uid ents db)).filter
        (fun m => m.id != n₁.id)).map (·.id)), hfind', ?_, ?_, ?_, ?_⟩
    · rw [connectPhase_eq_foldl]
      exact hdnfind
    · rw [hconns', hconns1, hdnid]
    · rw [otherIds_toFinset hwf1 hfind1]
      exact (entityIds_congr _ (fun m _ =>
        findNode_connectPhase_map_id _ dn₁.id (upsertAll uid ents db) uid m)).symm
    · intro n₀ h₀
      obtain ⟨hid0, hstr0⟩ := hidstr1 n₀ h₀
      exact ⟨by rw [hid', hid0], by rw [hstr', hstr0]⟩
  | none =>
    rw [mergeDocument_eq_notFound hdoc]
    have hldl : l ≠ docNodeLabel (upsertAll uid ents db) docId := by
      intro hcontra
      rw [hcontra, hdoc] at hfind1
      exact absurd hfind1 (by simp)
    have hdlnames : docNodeLabel (upsertAll uid ents db) docId ∉ ents.map (·.name) := by
      intro hc
      have := names_present uid ents db _ hc
      rw [hdoc] at this
      exact absurd this (by simp)
    have hfind2 : ((upsertAll uid ents db).createNode uid
        (docNodeLabel (upsertAll uid ents db) docId) "document" "Source document" 2
        ((entitySnapshot uid ents (upsertAll uid ents db)).map (·.id))).1.findNode uid l
        = some n₁ := by
      rw [findNode_createNode_other _ _ _ _ _ _ _ _ _ (Or.inr hldl)]
      exact hfind1
    have hwf2 : ((upsertAll uid ents db).createNode uid
        (docNodeLabel (upsertAll uid ents db) docId) "document" "Source document" 2
        ((entitySnapshot uid ents (upsertAll uid ents db)).map (·.id))).1.nodesWF :=
      nodesWF_createNode _ _ _ _ _ _ hdoc hwf1
    obtain ⟨n', hfind', hid', hstr', hconns'⟩ :=
      connectPhase_entity_final hwf2 hsnapnodup hmem1 hfind2
    have hdoc2 : ((upsertAll uid ents db).createNode uid
        (docNodeLabel (upsertAll uid ents db) docId) "document" "Source document" 2
        ((entitySnapshot uid ents (upsertAll uid ents db)).map (·.id))).1.findNode uid
        (docNodeLabel db docId) = some ((upsertAll uid ents db).createNode uid
        (docNodeLabel (upsertAll uid ents db) docId) "document" "Source document" 2
        ((entitySnapshot uid ents (upsertAll uid ents db)).map (·.id))).2 := by
      rw [← hdl]
      exact findNode_createNode_self _ _ _ _ _ _ _ hdoc
    obtain ⟨dn', hdnfind, hdnid, -⟩ :=
      (findNode_foldl_connectStep (entitySnapshot uid ents (upsertAll uid ents db))
        ((upsertAll uid ents db).createNode uid
          (docNodeLabel (upsertAll uid ents db) docId) "document" "Source document" 2
          ((entitySnapshot uid ents (upsertAll uid ents db)).map (·.id))).2.id
        (entitySnapshot uid ents (upsertAll uid ents db)) _ uid
        (docNodeLabel db docId)).2 _ hdoc2
    refine ⟨n', dn',
      (((entitySnapshot uid ents (upsertAll uid ents db)).filter
        (fun m => m.id != n₁.id)).map (·.id)), hfind', ?_, ?_, ?_, ?_⟩
    · rw [connectPhase_eq_foldl]
      exact hdnfind
    · rw [hconns', hconns1, hdnid]
    · have hstep1 : entityIds ((upsertAll uid ents db).createNode uid
          (docNodeLabel (upsertAll uid ents db) docId) "document" "Source document" 2
          ((entitySnapshot uid ents (upsertAll uid ents db)).map (·.id))).1 uid
          ((ents.map (·.name)).filter (fun m => m != l)) =
          entityIds (upsertAll uid ents db) uid
          ((ents.map (·.name)).filter (fun m => m != l)) := by
        refine entityIds_congr _ (fun m hm => ?_)
        have hmnames : m ∈ ents.map (·.name) := (List.mem_filter.1 hm).1
        have hmne : m ≠ docNodeLabel (upsertAll uid ents db) docId := by
          intro hc
          rw [hc] at hmnames
          exact hdlnames hmnames
        rw [findNode_createNode_other _ _ _ _ _ _ _ _ _ (Or.inr hmne)]
      rw [otherIds_toFinset hwf1 hfind1]
      rw [← hstep1]
      exact (entityIds_congr _ (fun m _ =>
        findNode_connectPhase_map_id _ _ _ uid m)).symm
    · intro n₀ h₀
      obtain ⟨hid0, hstr0⟩ := hidstr1 n₀ h₀
      exact ⟨by rw [hid', hid0], by rw [hstr', hstr0]⟩

/-! ## C9: document-node connection asymmetry -/

/-- When the document label is not among the entity names, the merge leaves
an existing document node's connections untouched. -/
theorem mergeDocument_docNode_frame (uid docId : String) (ents : List TypedEntity)
    {db : DB} (hwf : db.nodesWF)
    (hnotent : docNodeLabel db docId ∉ ents.map (·.name))
    {dn₀ : KnowledgeNode} (hfound : db.findNode uid (docNodeLabel db docId) = some dn₀) :
    (mergeDocument uid docId ents db).findNode uid (docNodeLabel db docId) = some dn₀ := by
  have hwf1 : (upsertAll uid ents db).nodesWF := nodesWF_upsertAll uid ents hwf
  have hdl : docNodeLabel (upsertAll uid ents db) docId = docNodeLabel db docId :=
    docNodeLabel_congr (upsertAll_docs uid ents db) docId
  have hfound1 : (upsertAll uid ents db).findNode uid (docNodeLabel db docId) = some dn₀ := by
    rw [findNode_upsertAll_other uid ents hwf uid _ (Or.inr hnotent)]
    exact hfound
  have hdoc : (upsertAll uid ents db).findNode uid
      (docNodeLabel (upsertAll uid ents db) docId) = some dn₀ := by
    rw [hdl]
    exact hfound1
  rw [mergeDocument_eq_found hdoc]
  have hdnmem : dn₀ ∈ (upsertAll uid ents db).nodes := (findNode_some_props hfound1).1
  have hnotin : dn₀.id ∉ (entitySnapshot uid ents (upsertAll uid ents db)).map (·.id) := by
    intro hc
    obtain ⟨sn, hsn, hid⟩ := List.mem_map.1 hc
    obtain ⟨hsnmem, hsnuid, hsnlab⟩ := mem_entitySnapshot.1 hsn
    have hsndn : sn = dn₀ := eq_of_mem_of_id_eq hwf1.1 hsnmem hdnmem hid
    rw [hsndn] at hsnlab
    have hdnlab : dn₀.label = docNodeLabel db docId := (findNode_some_props hfound1).2.2
    rw [hdnlab] at hsnlab
    exact hnotent hsnlab
  obtain ⟨dn', hdnfind, hdnid, -⟩ :=
    (findNode_foldl_connectStep (entitySnapshot uid ents (upsertAll uid ents db)) dn₀.id
      (entitySnapshot uid ents (upsertAll uid ents db)) (upsertAll uid ents db) uid
      (docNodeLabel db docId)).2 dn₀ hfound1
  have hres : (connectPhase (entitySnapshot uid ents (upsertAll uid ents db)) dn₀.id
      (upsertAll uid ents db)).findNode uid (docNodeLabel db docId) = some dn' := by
    rw [connectPhase_eq_foldl]
    exact hdnfind
  have hWFres : (connectPhase (entitySnapshot uid ents (upsertAll uid ents db)) dn₀.id
      (upsertAll uid ents db)).nodesWF := by
    rw [connectPhase_eq_foldl]
    exact nodesWF_foldl_connectStep _ _ _ hwf1
  have hById : (connectPhase (entitySnapshot uid ents (upsertAll uid ents db)) dn₀.id
      (upsertAll uid ents db)).nodeById dn₀.id = some dn₀ := by
    rw [connectPhase_eq_foldl, foldl_connectStep_nodeById_not_mem _ _ _ _ _ hnotin]
    exact nodeById_eq_of_mem hwf1.1 hdnmem
  have hdn'mem : dn' ∈ (connectPhase (entitySnapshot uid ents (upsertAll uid ents db))
      dn₀.id (upsertAll uid ents db)).nodes := (findNode_some_props hres).1
  have hself := nodeById_eq_of_mem hWFres.1 hdn'mem
  rw [hdnid, hById] at hself
  injection hself with hdn'
  rw [hres, hdn']

/-- Counterexample for C9: with document title `T` and the single extracted
entity also named `T`, the step-3 lookup finds an existing node under the
document label (the entity node just created), and this very invocation
then rewrites that node's connections — they are not left unchanged. -/
theorem mergeDocument_docNode_change_cex :
    cexEntsT.map (·.name) = ["T"] ∧
    (upsertAll "u" cexEntsT cexDB).findNode "u"
      (docNodeLabel (upsertAll "u" cexEntsT cexDB) "d1") =
      some ⟨0, "u", "T", "concept", "Extracted from document", 1, []⟩ ∧
    (mergeDocument "u" "d1" cexEntsT cexDB).findNode "u" (docNodeLabel cexDB "d1") =
      some ⟨0, "u", "T", "concept", "Extracted from document", 1, [0]⟩ ∧
    ([0] : List Nat) ≠ [] := by
  refine ⟨by decide, by decide, by decide, by decide⟩

/-- C9 (amended): provided the document label is not among the entity names
of the invocation, a later `mergeDocument` that finds an existing node under
the document label leaves that node's connections field (and id) unchanged,
while on the entity side every merged entity node's connection set gains the
document node's id. -/
theorem mergeDocument_docNode_asymmetry (uid docId : String) (ents : List TypedEntity)
    {db : DB} (hwf : db.nodesWF)
    (hnotent : docNodeLabel db docId ∉ ents.map (·.name))
    {dn₀ : KnowledgeNode} (hfound : db.findNode uid (docNodeLabel db docId) = some dn₀) :
    (mergeDocument uid docId ents db).findNode uid (docNodeLabel db docId) = some dn₀ ∧
    (∀ e ∈ ents, ∃ n, (mergeDocument uid docId ents db).findNode uid e.name = some n ∧
      dn₀.id ∈ n.connections) := by
  have hframe := mergeDocument_docNode_frame uid docId ents hwf hnotent hfound
  refine ⟨hframe, ?_⟩
  intro e he
  obtain ⟨n, dn, others, hn, hdn, hconns, -, -⟩ :=
    mergeDocument_conns_formula uid docId ents hwf e.name
      (List.mem_map.2 ⟨e, he, rfl⟩)
  refine ⟨n, hn, ?_⟩
  have hdneq : dn = dn₀ := by
    rw [hframe] at hdn
    injection hdn with h
    exact h.symm
  rw [hconns, ← hdneq]
  rw [mem_jsDedup]
  simp

/-- Witness for C9 (amended): a store holding a document node `MyDoc` with
one connection; merging a document of that title with one entity `A` leaves
the document node's connections at `[42]` while the new entity node points
back at the document node. -/
theorem mergeDocument_docNode_asymmetry_witness :
    (mergeDocument "u" "d2" [⟨"A", .concept⟩] cexDBDocNode).findNode "u"
      (docNodeLabel cexDBDocNode "d2") =
      some ⟨5, "u", "MyDoc", "document", "Source document", 2, [42]⟩ ∧
    (∃ n, (mergeDocument "u" "d2" [⟨"A", .concept⟩] cexDBDocNode).findNode "u" "A" =
      some n ∧ (5 : Nat) ∈ n.connections) := by
  have hwf : cexDBDocNode.nodesWF := by
    refine ⟨by simp [cexDBDocNode], by simp [cexDBDocNode], ?_⟩
    intro n hn m hm _ _
    simp only [cexDBDocNode, List.mem_singleton] at hn hm
    rw [hn, hm]
  have hfound : cexDBDocNode.findNode "u" (docNodeLabel cexDBDocNode "d2") =
      some ⟨5, "u", "MyDoc", "document", "Source document", 2, [42]⟩ := by decide
  have h := mergeDocument_docNode_asymmetry "u" "d2" [⟨"A", .concept⟩]
    hwf (by decide) hfound
  exact ⟨h.1, h.2 ⟨"A", .concept⟩ (by decide)⟩

/-! ## C3: extraction concurrency and summary dependence -/

/-- Counterexample for C3: on a network where entity extraction succeeds
with one entity but the summary call fails, `Promise.all` rejects as a
whole and the outer catch leaves the store untouched — no document update
and no graph merge happen even though the entity list is non-empty. -/
theorem processDocumentWithAI_summary_dependence_cex :
    extractEntitiesWithTypes cexNetSummaryDown (some "k") "c" = [⟨"A", .concept⟩] ∧
    generateSummary cexNetSummaryDown (some "k") "c" = .error "network down" ∧
    processDocumentWithAI cexNetSummaryDown (some "k") "d1" "c" "u" cexDB = cexDB ∧
    cexDB.nodes = [] := by
  refine ⟨by decide, by decide, by decide, by decide⟩

/-- C3 (amended): the three extraction promises are issued jointly through
`Promise.all`, which rejects as a whole as soon as `generateSummary`
rejects, so the merge does block on the summary result: a summary failure
leaves the store completely unchanged even when entity extraction yields a
non-empty list; only when the summary call succeeds (and the document row
exists) is the graph merged, and then every extracted entity receives a
node. -/
theorem processDocumentWithAI_spec (net : Net) (apiKey : Option String)
    (docId content uid : String) {db : DB} (hwf : db.nodesWF) :
    (∀ e, generateSummary net apiKey content = .error e →
      processDocumentWithAI net apiKey docId content uid db = db) ∧
    (∀ s, generateSummary net apiKey content = .ok s →
      db.docs.any (fun d => d.id == docId) = true →
      ∀ te ∈ extractEntitiesWithTypes net apiKey content,
        ((processDocumentWithAI net apiKey docId content uid db).findNode uid te.name).isSome ∧
        (processDocumentWithAI net apiKey docId content uid db).nodesWF) := by
  constructor
  · intro e he
    unfold processDocumentWithAI
    rw [he]
  · intro s hs hdocs te hte
    have hres : processDocumentWithAI net apiKey docId content uid db =
        mergeDocument uid docId (extractEntitiesWithTypes net apiKey content)
          (updateDocAI docId s
            ((extractEntitiesWithTypes net apiKey content).map (·.name))
            (extractKeyPoints net apiKey content) (embedCounts content) db) := by
      simp only [processDocumentWithAI, hs, hdocs, if_true]
    have hwf1 : (updateDocAI docId s
        ((extractEntitiesWithTypes net apiKey content).map (·.name))
        (extractKeyPoints net apiKey content) (embedCounts content) db).nodesWF := hwf
    rw [hres]
    exact ⟨findNode_mergeDocument_present uid docId _ _ te hte,
      nodesWF_mergeDocument uid docId _ hwf1⟩

/-- Witness for C3 (amended): on the summary-failing network the store
comes back unchanged; on a fully healthy network the stored document is
processed and the extracted entity `A` receives a node. -/
theorem processDocumentWithAI_spec_witness :
    cexDB.nodesWF ∧
    processDocumentWithAI cexNetSummaryDown (some "k") "d1" "c" "u" cexDB = cexDB ∧
    ((processDocumentWithAI cexNetAllOk (some "k") "d1" "c" "u" cexDB).findNode
      "u" "A").isSome := by
  have hwf : cexDB.nodesWF :=
    ⟨by simp [cexDB], by intro n hn; simp [cexDB] at hn, by intro n hn; simp [cexDB] at hn⟩
  refine ⟨hwf, ?_, ?_⟩
  · exact (processDocumentWithAI_spec cexNetSummaryDown (some "k") "d1" "c" "u" hwf).1
      "network down" (by decide)
  · exact ((processDocumentWithAI_spec cexNetAllOk (some "k") "d1" "c" "u" hwf).2
      "fine" (by decide) (by decide) ⟨"A", .concept⟩ (by decide)).1

/-! ## C4: repeated merge -/

/-- Connection sets are untouched by the entity-upsert loop: its update
patches only strength and type. -/
theorem nodeById_upsertAll_conns (uid : String) (ents : List TypedEntity) :
    ∀ {db : DB}, db.nodesWF → (∀ e ∈ ents, (db.findNode uid e.name).isSome) →
      ∀ j, ((upsertAll uid ents db).nodeById j).map (·.connections) =
        (db.nodeById j).map (·.connections) := by
  induction ents with
  | nil => intro db _ _ j; rfl
  | cons e rest ih =>
    intro db hwf hpres j
    obtain ⟨ex, hex⟩ := Option.isSome_iff_exists.mp (hpres e (by simp))
    rw [upsertAll_cons,
      ih (nodesWF_upsertEntity uid e hwf)
        (fun e' he' => findNode_upsertEntity_isSome_mono uid e db uid e'.name
          (hpres e' (List.mem_cons_of_mem _ he'))) j,
      upsertEntity_found hex, nodeById_updateNode]
    cases hdbj : db.nodeById j with
    | none => rfl
    | some n =>
      by_cases hn : n.id = ex.id
      · simp [hn, applyPatch]
      · simp [hn]

/-- Repeating the merge on an all-present store creates no node: the id
column is unchanged. -/
theorem mergeDocument_map_id_of_present (uid docId : String) (ents : List TypedEntity)
    {db : DB} (hwf : db.nodesWF)
    (hpres : ∀ e ∈ ents, (db.findNode uid e.name).isSome)
    (hdocpres : (db.findNode uid (docNodeLabel db docId)).isSome) :
    (mergeDocument uid docId ents db).nodes.map (·.id) = db.nodes.map (·.id) := by
  have hdl : docNodeLabel (upsertAll uid ents db) docId = docNodeLabel db docId :=
    docNodeLabel_congr (upsertAll_docs uid ents db) docId
  have h1 : ((upsertAll uid ents db).findNode uid (docNodeLabel db docId)).isSome :=
    findNode_upsertAll_isSome_mono uid ents db uid _ hdocpres
  cases hdoc : (upsertAll uid ents db).findNode uid
      (docNodeLabel (upsertAll uid ents db) docId) with
  | none =>
    rw [hdl] at hdoc
    rw [hdoc] at h1
    exact absurd h1 (by simp)
  | some dn =>
    rw [mergeDocument_eq_found hdoc, connectPhase_eq_foldl, foldl_connectStep_map_id,
      upsertAll_map_id_of_present uid ents hwf hpres]

/-- Abstract core of connection stability: merging into a store in which
every entity row already carries the deduped union of the first run leaves
every connection set as it was. -/
theorem mergeDocument_conns_stable_aux (uid docId : String) (ents : List TypedEntity)
    (db s1 : DB)
    (hwfs1 : s1.nodesWF)
    (hpres1 : ∀ e ∈ ents, (s1.findNode uid e.name).isSome)
    (hdl1 : docNodeLabel s1 docId = docNodeLabel db docId)
    (hdocl1 : (s1.findNode uid (docNodeLabel db docId)).isSome)
    (hM5 : ∀ l ∈ ents.map (·.name), ∃ n dn others,
      s1.findNode uid l = some n ∧
      s1.findNode uid (docNodeLabel db docId) = some dn ∧
      n.connections = jsDedup (prevConns db uid l ++ (others ++ [dn.id])) ∧
      others.toFinset = entityIds s1 uid ((ents.map (·.name)).filter (fun m => m != l))) :
    ∀ j, ((mergeDocument uid docId ents s1).nodeById j).map (·.connections) =
      (s1.nodeById j).map (·.connections) := by
  intro j
  have hwf2 : (upsertAll uid ents s1).nodesWF := nodesWF_upsertAll uid ents hwfs1
  have hdl2 : docNodeLabel (upsertAll uid ents s1) docId = docNodeLabel db docId := by
    rw [docNodeLabel_congr (upsertAll_docs uid ents s1) docId]
    exact hdl1
  have hA := nodeById_upsertAll_conns uid ents hwfs1 hpres1
  have htr : ∀ {l : String} {n : KnowledgeNode}, s1.findNode uid l = some n →
      ∃ n', (upsertAll uid ents s1).findNode uid l = some n' ∧
        n'.id = n.id ∧ n'.userId = n.userId ∧ n'.label = n.label ∧
        n'.connections = n.connections ∧
        n'.strength = n.strength + ((ents.map (·.name)).count l : ℚ) * (1 / 2) :=
    fun h => findNode_upsertAll_tracked uid ents hwfs1 h
  have hdoc2s : ((upsertAll uid ents s1).findNode uid
      (docNodeLabel (upsertAll uid ents s1) docId)).isSome := by
    rw [hdl2]
    exact findNode_upsertAll_isSome_mono uid ents s1 uid _ hdocl1
  obtain ⟨dn₂, hdoc2⟩ := Option.isSome_iff_exists.mp hdoc2s
  rw [mergeDocument_eq_found hdoc2]
  by_cases hj : j ∈ (entitySnapshot uid ents (upsertAll uid ents s1)).map (·.id)
  · obtain ⟨sn, hsn, hsnid⟩ := List.mem_map.1 hj
    obtain ⟨hsnmem, hsnuid, hsnlab⟩ := mem_entitySnapshot.1 hsn
    rw [← hsnid]
    rw [connectPhase_eq_foldl,
      foldl_connectStep_nodeById_mem _ _ _ _ (entitySnapshot_map_id_nodup hwf2.1) sn hsn]
    have hById2 : (upsertAll uid ents s1).nodeById sn.id = some sn :=
      nodeById_eq_of_mem hwf2.1 hsnmem
    rw [hById2, ← hA sn.id, hById2]
    simp only [Option.map_some', applyPatch]
    have hfsn : (upsertAll uid ents s1).findNode uid sn.label = some sn := by
      have h := findNode_eq_of_mem hwf2 hsnmem
      rwa [hsnuid] at h
    obtain ⟨nstar, dn₁, others₁, hnstar, hdn₁, hconns₁, hothers₁⟩ := hM5 sn.label hsnlab
    obtain ⟨n', hn', hn'id, -, -, hn'conn, -⟩ := htr hnstar
    have hsneq : n' = sn := by
      rw [hn'] at hfsn
      injection hfsn
    have hconnsn : sn.connections =
        jsDedup (prevConns db uid sn.label ++ (others₁ ++ [dn₁.id])) := by
      have hc : sn.connections = nstar.connections := by
        rw [← hsneq]
        exact hn'conn
      rw [hc, hconns₁]
    have hnodupsn : sn.connections.Nodup := by
      rw [hconnsn]
      exact nodup_jsDedup _
    obtain ⟨dn', hdn', hdn'id, -, -, -, -⟩ := htr hdn₁
    have hdoc2' : (upsertAll uid ents s1).findNode uid (docNodeLabel db docId) = some dn₂ := by
      rw [← hdl2]
      exact hdoc2
    have hdneq : dn₂.id = dn₁.id := by
      rw [hdn'] at hdoc2'
      injection hdoc2' with hh
      rw [← hh]
      exact hdn'id
    have hoth : ((((entitySnapshot uid ents (upsertAll uid ents s1)).filter
        (fun m => m.id != sn.id)).map (·.id)).toFinset) =
        entityIds (upsertAll uid ents s1) uid
          ((ents.map (·.name)).filter (fun m => m != sn.label)) :=
      otherIds_toFinset hwf2 hfsn
    have hids : entityIds (upsertAll uid ents s1) uid
        ((ents.map (·.name)).filter (fun m => m != sn.label)) =
        entityIds s1 uid ((ents.map (·.name)).filter (fun m => m != sn.label)) := by
      refine entityIds_congr _ ?_
      intro m hm
      have hmn : m ∈ ents.map (·.name) := (List.mem_filter.1 hm).1
      obtain ⟨e', he', hne⟩ := List.mem_map.1 hmn
      have hms : (s1.findNode uid m).isSome := by
        rw [← hne]
        exact hpres1 e' he'
      obtain ⟨nm, hnm⟩ := Option.isSome_iff_exists.mp hms
      obtain ⟨nm', hnm', hnm'id, -, -, -, -⟩ := htr hnm
      rw [hnm, hnm']
      simp [hnm'id]
    have hsub : ∀ x ∈ (((entitySnapshot uid ents (upsertAll uid ents s1)).filter
        (fun m => m.id != sn.id)).map (·.id)) ++ [dn₂.id], x ∈ sn.connections := by
      intro x hx
      rw [hconnsn, mem_jsDedup]
      rcases List.mem_append.1 hx with hx1 | hx2
      · have hxf : x ∈ (((entitySnapshot uid ents (upsertAll uid ents s1)).filter
            (fun m => m.id != sn.id)).map (·.id)).toFinset := List.mem_toFinset.2 hx1
        rw [hoth, hids, ← hothers₁] at hxf
        have hmem := List.mem_toFinset.1 hxf
        simp [hmem]
      · have hxd : x = dn₁.id := by
          rw [List.mem_singleton] at hx2
          rw [hx2, hdneq]
        simp [hxd]
    rw [jsDedup_append_absorb hnodupsn hsub]
  · rw [connectPhase_eq_foldl, foldl_connectStep_nodeById_not_mem _ _ _ _ _ hj, hA j]

/-- A second merge with identical entities changes no stored connection
set. -/
theorem mergeDocument_conns_stable (uid docId : String) (ents : List TypedEntity)
    {db : DB} (hwf : db.nodesWF) :
    ∀ j, ((mergeDocument uid docId ents (mergeDocument uid docId ents db)).nodeById j).map
        (·.connections) =
      ((mergeDocument uid docId ents db).nodeById j).map (·.connections) := by
  refine mergeDocument_conns_stable_aux uid docId ents db _
    (nodesWF_mergeDocument uid docId ents hwf)
    (findNode_mergeDocument_present uid docId ents db)
    (docNodeLabel_congr (mergeDocument_docs uid docId ents db) docId)
    (findNode_mergeDocument_docLabel uid docId ents db) ?_
  intro l hl
  obtain ⟨n, dn, others, h1, h2, h3, h4, -⟩ :=
    mergeDocument_conns_formula uid docId ents hwf l hl
  exact ⟨n, dn, others, h1, h2, h3, h4⟩

/-- C4: running the merge twice with identical entities is not idempotent
on strength (the second run adds another 0.5 per mention) but is idempotent
on connections and node existence: the store stays well-formed (one node
per owner/label pair), the second run creates no node (id column unchanged)
and changes no connection set, and after the merge every entity node's
connection set is, with set semantics and no duplicate edges, the union of
its previously stored connections, the ids of the document's other entity
nodes, and the document node's id. -/
theorem mergeDocument_idempotence (uid docId : String) (ents : List TypedEntity)
    {db : DB} (hwf : db.nodesWF) :
    (mergeDocument uid docId ents (mergeDocument uid docId ents db)).nodes.map (·.id) =
      (mergeDocument uid docId ents db).nodes.map (·.id) ∧
    (mergeDocument uid docId ents db).nodesWF ∧
    (mergeDocument uid docId ents (mergeDocument uid docId ents db)).nodesWF ∧
    (∀ n₂ ∈ (mergeDocument uid docId ents (mergeDocument uid docId ents db)).nodes,
      ∀ n₁ ∈ (mergeDocument uid docId ents db).nodes, n₂.id = n₁.id →
        n₂.connections = n₁.connections) ∧
    (∀ l ∈ ents.map (·.name), ∃ n dn,
      (mergeDocument uid docId ents db).findNode uid l = some n ∧
      (mergeDocument uid docId ents db).findNode uid (docNodeLabel db docId) = some dn ∧
      n.connections.Nodup ∧
      n.connections.toFinset = (prevConns db uid l).toFinset ∪
        entityIds (mergeDocument uid docId ents db) uid
          ((ents.map (·.name)).filter (fun m => m != l)) ∪ {dn.id}) ∧
    (∀ l ∈ ents.map (·.name), ∃ n₁ n₂,
      (mergeDocument uid docId ents db).findNode uid l = some n₁ ∧
      (mergeDocument uid docId ents (mergeDocument uid docId ents db)).findNode uid l
        = some n₂ ∧
      n₂.strength = n₁.strength + ((ents.map (·.name)).count l : ℚ) * (1 / 2)) := by
  have hwfs1 : (mergeDocument uid docId ents db).nodesWF :=
    nodesWF_mergeDocument uid docId ents hwf
  have hwfs2 : (mergeDocument uid docId ents (mergeDocument uid docId ents db)).nodesWF :=
    nodesWF_mergeDocument uid docId ents hwfs1
  have hstable := mergeDocument_conns_stable uid docId ents hwf
  refine ⟨?_, hwfs1, hwfs2, ?_, ?_, ?_⟩
  · refine mergeDocument_map_id_of_present uid docId ents hwfs1
      (findNode_mergeDocument_present uid docId ents db) ?_
    rw [docNodeLabel_congr (mergeDocument_docs uid docId ents db) docId]
    exact findNode_mergeDocument_docLabel uid docId ents db
  · intro n₂ hn₂ n₁ hn₁ hid
    have h₂ := nodeById_eq_of_mem hwfs2.1 hn₂
    have h₁ := nodeById_eq_of_mem hwfs1.1 hn₁
    have h := hstable n₂.id
    rw [h₂] at h
    rw [hid, h₁] at h
    simpa using h
  · intro l hl
    obtain ⟨n, dn, others, h1, h2, h3, h4, -⟩ :=
      mergeDocument_conns_formula uid docId ents hwf l hl
    refine ⟨n, dn, h1, h2, ?_, ?_⟩
    · rw [h3]
      exact nodup_jsDedup _
    · rw [h3]
      ext x
      simp only [List.mem_toFinset, mem_jsDedup, List.mem_append, List.mem_singleton,
        Finset.mem_union, Finset.mem_singleton, ← h4]
      tauto
  · intro l hl
    obtain ⟨n₁, dn₁, o₁, h1, -, -, -, -⟩ :=
      mergeDocument_conns_formula uid docId ents hwf l hl
    obtain ⟨n₂, dn₂, o₂, g1, -, -, -, g5⟩ :=
      mergeDocument_conns_formula uid docId ents hwfs1 l hl
    exact ⟨n₁, n₂, h1, g1, (g5 n₁ h1).2⟩

/-- Witness for C4: two merges of entities `A`, `B` into the empty store
keep the id column fixed across the repeat run, while `A`'s node gains
another `0.5` strength. -/
theorem mergeDocument_idempotence_witness :
    (mergeDocument "u" "d1" cexEntsAB (mergeDocument "u" "d1" cexEntsAB cexDB)).nodes.map
        (·.id) =
      (mergeDocument "u" "d1" cexEntsAB cexDB).nodes.map (·.id) ∧
    (∃ n₁ n₂,
      (mergeDocument "u" "d1" cexEntsAB cexDB).findNode "u" "A" = some n₁ ∧
      (mergeDocument "u" "d1" cexEntsAB (mergeDocument "u" "d1" cexEntsAB cexDB)).findNode
        "u" "A" = some n₂ ∧
      n₂.strength = n₁.strength + ((cexEntsAB.map (·.name)).count "A" : ℚ) * (1 / 2)) := by
  have hwf : cexDB.nodesWF :=
    ⟨by simp [cexDB], by intro n hn; simp [cexDB] at hn, by intro n hn; simp [cexDB] at hn⟩
  have h := mergeDocument_idempotence "u" "d1" cexEntsAB hwf
  exact ⟨h.1, h.2.2.2.2.2 "A" (by decide)⟩

/-! ## C10: the AI-processing gate -/

/-- C10: AI enrichment is gated on the content being longer than 20
characters and not starting with `[File:` (the empty-string leg of the
source's gate is subsumed by the length test); a failing POST stores the
raw document with every AI-derived column null and skips processing, and a
failing PATCH returns the store unchanged. -/
theorem ingestGate_spec (net : Net) (apiKey : Option String)
    (uid title content docId : String) (db : DB) :
    shouldProcessContent content =
      (decide (20 < content.length) && !jsStartsWith content "[File:") ∧
    (title ≠ "" → shouldProcessContent content = true →
      POSTmodel net apiKey uid title content docId db =
        processDocumentWithAI net apiKey docId content uid
          (createDocument uid title content docId db)) ∧
    (title ≠ "" → shouldProcessContent content = false →
      POSTmodel net apiKey uid title content docId db =
        createDocument uid title content docId db) ∧
    (∀ doc, db.docs.find? (fun d => d.id == docId) = some doc → doc.userId = uid →
      shouldProcessContent doc.content = false →
      PATCHmodel net apiKey uid docId db = db) ∧
    (∀ d ∈ (createDocument uid title content docId db).docs, d.id = docId →
      (∀ d0 ∈ db.docs, d0.id ≠ docId) →
      d.summary = none ∧ d.entities = none ∧ d.keyPoints = none ∧ d.tags = none ∧
        d.embedding = none) := by
  refine ⟨?_, ?_, ?_, ?_, ?_⟩
  · unfold shouldProcessContent
    by_cases h : content = ""
    · subst h
      rfl
    · have hne : (content != "") = true := by simpa using h
      rw [hne]
      simp
  · intro htitle hgate
    unfold POSTmodel
    rw [if_neg (by simpa using htitle), if_pos hgate]
  · intro htitle hgate
    unfold POSTmodel
    rw [if_neg (by simpa using htitle), if_neg (by simp [hgate])]
  · intro doc hfind huid hgate
    unfold PATCHmodel
    rw [hfind]
    simp [huid, hgate]
  · intro d hd hdid hfresh
    simp only [createDocument, List.mem_append] at hd
    rcases hd with hd1 | hd2
    · exact absurd hdid (hfresh d hd1)
    · rw [List.mem_singleton] at hd2
      subst hd2
      exact ⟨rfl, rfl, rfl, rfl, rfl⟩

/-- Witness for C10: a long content starting with `[File:` is stored but
not processed by POST, and PATCH on a stored 1-character document leaves
the store unchanged. -/
theorem ingestGate_spec_witness :
    POSTmodel cexNetAllOk (some "k") "u" "T" "[File: report.pdf attachment text]" "d9"
        cexDB =
      createDocument "u" "T" "[File: report.pdf attachment text]" "d9" cexDB ∧
    PATCHmodel cexNetAllOk (some "k") "u" "d1" cexDB = cexDB := by
  refine ⟨?_, ?_⟩
  · exact (ingestGate_spec cexNetAllOk (some "k") "u" "T"
      "[File: report.pdf attachment text]" "d9" cexDB).2.2.1 (by decide) (by decide)
  · exact (ingestGate_spec cexNetAllOk (some "k") "u" "T" "c" "d1" cexDB).2.2.2.1
      cexDoc (by decide) rfl (by decide)

end NeuralCortex
